/-
Verification of the via-wind Visibility & Field-of-View Estimation Engine.

Shallow embedding of the core functions of the repository:
  * `via_wind/visibility.py` : obstruction-height ladders, FOV lookup-table
    completeness checking, FOV percentage lookup, distance binning;
  * `via_wind/measures.py`   : distance/direction fields, look angles and
    their classification;
  * `via_wind/raster.py`     : block mosaicking (`mosaic_block`);
  * `via_wind/cli/viewshed.py` : the per-turbine viewshed compositing loop
    and the wind-direction-weighted FOV averaging loop.

Machine floats of the source are embedded as exact rationals (`ℚ`) where the
code's arithmetic is rational, and as reals (`ℝ`) where the code uses
trigonometry.  Fallible code paths (`raise ValueError` etc.) are embedded
with `Except String`.
-/
import Mathlib

namespace ViaWind

/-! ### Constants (via_wind/visibility.py) -/

/-- `visibility.NOT_VISIBLE_VALUE = 58368`: the sentinel recorded for pixels
at which the turbine is visible at no sampled obstruction height. -/
def NOT_VISIBLE_VALUE : ℚ := 58368

/-! ### Visibility compositor (via_wind/cli/viewshed.py, `viewshed`)

The per-turbine loop over obstruction heights.  `P` is the (abstract) index
type of pixels of the fixed analysis window; a raster is a function `P → ℚ`.
The external GDAL viewshed oracle is abstracted as
`oracle : ℚ → P → Bool` (obstruction height ↦ binary visibility raster). -/

/-- One loop iteration's recoding step:
`np.where(viewshed_array == 1, obstruction_height, NOT_VISIBLE_VALUE)`. -/
def visibleHeightArray {P : Type} (oracle : ℚ → P → Bool) (h : ℚ) : P → ℚ :=
  fun p => if oracle h p then h else NOT_VISIBLE_VALUE

/-- The initial composite: `obst_height_array[:] = NOT_VISIBLE_VALUE`. -/
def initialComposite {P : Type} : P → ℚ := fun _ => NOT_VISIBLE_VALUE

/-- The height loop of `viewshed`: for each obstruction height, recode the
oracle's binary raster and fold it into the running composite with
`np.minimum(visible_height_array, obst_height_array)`. -/
def compositeVisibility {P : Type} (oracle : ℚ → P → Bool)
    (heights : List ℚ) : P → ℚ :=
  heights.foldl
    (fun acc h => fun p => min (visibleHeightArray oracle h p) (acc p))
    initialComposite

/-! ### Obstruction-height ladder (via_wind/visibility.py,
`get_obstruction_heights`)

`np.arange(0, max_tip_height + obstruction_interval, obstruction_interval)`,
embedded exactly: the arange of `(0, stop, step)` with `stop, step > 0` has
`⌈stop/step⌉` elements `k * step`. -/

/-- `get_obstruction_heights(rotor_diameter, hub_height, obstruction_interval)`. -/
def get_obstruction_heights (rotor_diameter hub_height obstruction_interval : ℚ) :
    List ℚ :=
  let max_tip_height := hub_height + rotor_diameter * (1/2)
  let stop := max_tip_height + obstruction_interval
  let n : ℕ := (Int.toNat ⌈stop / obstruction_interval⌉)
  (List.range n).map (fun k : ℕ => (k : ℚ) * obstruction_interval)

/-! ### The FOV lookup table (via_wind/visibility.py) -/

/-- One row of the FOV lookup dataframe (`fov_df`), after
`check_columns(fov_df, REQUIRED_FOV_COLS)` has validated the schema. -/
structure FovRow where
  rotor_diameter_m : ℚ
  hub_height_m : ℚ
  obstruction_height_m : ℚ
  distance_m : ℚ
  rotation : String
  pct_fov : ℚ
deriving DecidableEq

/-- The five key columns on which the completeness check joins
(`required_df.columns`). -/
structure FovKey where
  rotor_diameter_m : ℚ
  hub_height_m : ℚ
  obstruction_height_m : ℚ
  distance_m : ℚ
  rotation : String
deriving DecidableEq

/-- Projection of a table row onto the five join-key columns. -/
def keyOfRow (r : FovRow) : FovKey :=
  ⟨r.rotor_diameter_m, r.hub_height_m, r.obstruction_height_m, r.distance_m,
    r.rotation⟩

/-- The `rd_m`/`hh_m` columns of one row of the turbines dataframe. -/
structure TurbineDims where
  rd_m : ℚ
  hh_m : ℚ
deriving DecidableEq

/-- `TURBINE_ROTATIONS = {"FRONT": 1, "DIAGONAL": 2, "SIDE": 3}`. -/
def TURBINE_ROTATIONS : List (String × ℤ) :=
  [("FRONT", 1), ("DIAGONAL", 2), ("SIDE", 3)]

/-- `fov_df["rotation"].map(TURBINE_ROTATIONS)`: an unmapped label becomes
`NaN` in pandas, which compares unequal to every look-angle class; `-999` is
outside the class range `{-1, 1, 2, 3}` and plays that role here. -/
def rotationClass (r : String) : ℤ :=
  (TURBINE_ROTATIONS.lookup r).getD (-999)

/-- Helper for first-occurrence deduplication: `seen` accumulates the values
already emitted. -/
def uniqueKeepFirstAux {α : Type} [DecidableEq α] (seen : List α) :
    List α → List α
  | [] => []
  | a :: rest =>
    if a ∈ seen then uniqueKeepFirstAux seen rest
    else a :: uniqueKeepFirstAux (a :: seen) rest

/-- `pandas.Series.unique()` / `np.unique`-as-a-set: first-occurrence
deduplication (order of first appearance is preserved, which is what
`np.argmin` tie-breaking sees). -/
def uniqueKeepFirst {α : Type} [DecidableEq α] (l : List α) : List α :=
  uniqueKeepFirstAux [] l

/-- `fov_df["distance_m"].max()` (`None` on an empty column). -/
def listMaxQ : List ℚ → Option ℚ
  | [] => none
  | a :: rest =>
    match listMaxQ rest with
    | none => some a
    | some m => some (max a m)

/-- `check_fov_lkup_complete`'s guard: the table's maximum distance (in km)
is smaller than the configured maximum analysis distance. -/
def maxFovDistTooSmall (fov : List FovRow) (max_distance_km : ℚ) : Bool :=
  match listMaxQ (fov.map (·.distance_m)) with
  | none => false
  | some m => decide (m / 1000 < max_distance_km)

/-- `fov_df["distance_m"].unique()`: the table's distinct distance levels in
order of first appearance. -/
def distanceLevels (fov : List FovRow) : List ℚ :=
  uniqueKeepFirst (fov.map (·.distance_m))

/-- `distances = [d for d in fov_df["distance_m"].unique() if (d / 1000) <= max_distance_km]`. -/
def fovDistances (fov : List FovRow) (max_distance_km : ℚ) : List ℚ :=
  (distanceLevels fov).filter (fun d => decide (d / 1000 ≤ max_distance_km))

/-- The `required_records` built by `check_fov_lkup_complete`: the product of
the distinct turbine dimensions, the obstruction heights they imply, the
table's distance levels within range, and the turbine rotations.
(`np.unique(..., axis=0)` sorts the distinct dimension pairs; only the
membership and the count of the product are used downstream, so
first-occurrence deduplication is an equivalent embedding.) -/
def requiredRecords (fov : List FovRow) (turbines : List TurbineDims)
    (obstruction_interval_m max_distance_km : ℚ) (rots : List String) :
    List FovKey :=
  (uniqueKeepFirst turbines).flatMap (fun t =>
    (get_obstruction_heights t.rd_m t.hh_m obstruction_interval_m).flatMap (fun oh =>
      (fovDistances fov max_distance_km).flatMap (fun d =>
        rots.map (fun rot => ⟨t.rd_m, t.hh_m, oh, d, rot⟩))))

/-- `len(pd.merge(required_df, fov_df, how="inner", on=required_df.columns))`:
each required record contributes one joined row per table row matching it on
all five key columns. -/
def innerJoinLen (fov : List FovRow) (required : List FovKey) : ℕ :=
  (required.map (fun k => (fov.filter (fun r => decide (keyOfRow r = k))).length)).sum

/-- `check_fov_lkup_complete(fov_df, turbines_df, obstruction_interval_m,
max_distance_km, turbine_rotations=None)`. -/
def check_fov_lkup_complete (fov : List FovRow) (turbines : List TurbineDims)
    (obstruction_interval_m max_distance_km : ℚ)
    (turbine_rotations : Option (List String)) : Except String Unit :=
  let rots := turbine_rotations.getD (TURBINE_ROTATIONS.map (·.1))
  if maxFovDistTooSmall fov max_distance_km then
    .error "Maximum distance in FOV lookup table is smaller than the maximum distance from the turbine for which visibility will be analyzed."
  else
    let required := requiredRecords fov turbines obstruction_interval_m
      max_distance_km rots
    if innerJoinLen fov required < required.length then
      .error "Required values are missing from the FOV lookup table."
    else
      .ok ()

/-! ### FOV percentage lookup (via_wind/visibility.py, `lookup_fov_pct`) -/

/-- The rows of the lookup table filtered to the turbine's dimensions
(`fov_sub_df`) that match one visible pixel's (obstruction height, distance
bin, look-angle class) join key.  `pd.merge(combos_df, fov_sub_df,
how="left", on=join_columns)` produces one output row per such match (and a
single NaN row when there is none). -/
def matchingRows (fov : List FovRow) (rotor_diameter_m hub_height_m : ℚ)
    (oh dist : ℚ) (cls : ℤ) : List FovRow :=
  ((fov.filter (fun r =>
      decide (r.rotor_diameter_m = rotor_diameter_m ∧
        r.hub_height_m = hub_height_m))).filter
    (fun r =>
      decide (r.obstruction_height_m = oh ∧ r.distance_m = dist ∧
        rotationClass r.rotation = cls)))

/-- The joined row of one visible pixel when its key matches at most one
table row (the only case in which `lookup_fov_pct` returns instead of
raising). -/
def lookupRow (fov : List FovRow) (rotor_diameter_m hub_height_m : ℚ)
    (oh dist : ℚ) (cls : ℤ) : Option FovRow :=
  (matchingRows fov rotor_diameter_m hub_height_m oh dist cls).head?

/-- The FOV percentage array written back by `lookup_fov_pct` when the
masked assignment succeeds: pixels whose composite equals
`NOT_VISIBLE_VALUE` keep the zero initialization and are never joined; a
visible pixel takes its (then unique) joined row's `pct_fov`; a join miss
at a visible pixel yields `NaN` in the float output, embedded here as the
arbitrary value `nanVal`. -/
def fovPctArray {P : Type} (nanVal : ℚ) (fov : List FovRow)
    (rotor_diameter_m hub_height_m : ℚ) (obst distBin : P → ℚ)
    (look : P → ℤ) : P → ℚ :=
  fun p =>
    if obst p = NOT_VISIBLE_VALUE then 0
    else
      match lookupRow fov rotor_diameter_m hub_height_m (obst p) (distBin p)
          (look p) with
      | some r => r.pct_fov
      | none => nanVal

/-- `lookup_fov_pct(fov_df, rotor_diameter_m, hub_height_m,
obst_height_array, distance_bin_array, lookangle_array)`.  The left merge
yields one row per (visible pixel, matching table row) pair, so
`fov_pct[visible_pixels] = combo_fov_lkup["pct_fov"].tolist()` raises a
length-mismatch `ValueError` whenever some visible pixel's key matches two
or more rows of the dims-filtered table; otherwise the assignment writes
`fovPctArray`.  (`P` is a `Fintype`: the pixel grid is a finite array.) -/
def lookup_fov_pct {P : Type} [Fintype P] (nanVal : ℚ) (fov : List FovRow)
    (rotor_diameter_m hub_height_m : ℚ) (obst distBin : P → ℚ)
    (look : P → ℤ) : Except String (P → ℚ) :=
  if ∃ p : P, obst p ≠ NOT_VISIBLE_VALUE ∧
      2 ≤ (matchingRows fov rotor_diameter_m hub_height_m (obst p)
        (distBin p) (look p)).length then
    .error "NumPy boolean array indexing assignment cannot assign the input values to the output values where the mask is true"
  else
    .ok (fovPctArray nanVal fov rotor_diameter_m hub_height_m obst distBin
      look)

/-! ### Wind-direction-weighted FOV averaging (via_wind/cli/viewshed.py,
`viewshed`, second loop)

One `WindBucket` represents one `freq_winddir_###` column: `weight` is the
turbine's frequency value in that column and `winddir` the compass angle
parsed from the column name.  The look-angle classifier is abstracted as
`lookClass : ℚ → P → ℤ` (turbine bearing ↦ per-pixel class array); it is
embedded separately as `classify_look_angle`. -/

structure WindBucket where
  weight : ℚ
  winddir : ℚ

/-- Python's float modulo `x % n` (sign follows the divisor). -/
def qmod (x n : ℚ) : ℚ := x - n * ⌊x / n⌋

/-- `turbine_bearing = (winddir + 180) % 360`. -/
def turbineBearing (winddir : ℚ) : ℚ := qmod (winddir + 180) 360

/-- The accumulation loop over `winddir_cols`: skip buckets with
`weight <= 0`, raise on a wind direction outside `[0, 360]`, compute the
bucket's FOV raster by `lookup_fov_pct` (propagating its duplicate-match
`ValueError`), and collect the weight and the FOV raster of every remaining
bucket in order. -/
def fovLoop {P : Type} [Fintype P] (nanVal : ℚ) (fov : List FovRow)
    (rd_m hh_m : ℚ) (obst distBin : P → ℚ) (lookClass : ℚ → P → ℤ) :
    List WindBucket → Except String (List ℚ × List (P → ℚ))
  | [] => .ok ([], [])
  | b :: rest =>
    if b.weight ≤ 0 then
      fovLoop nanVal fov rd_m hh_m obst distBin lookClass rest
    else if b.winddir < 0 ∨ b.winddir > 360 then
      .error "Unexpected wind direction: out of range 0 to 360"
    else
      match lookup_fov_pct nanVal fov rd_m hh_m obst distBin
          (lookClass (turbineBearing b.winddir)) with
      | .error e => .error e
      | .ok fovArr =>
        match fovLoop nanVal fov rd_m hh_m obst distBin lookClass rest with
        | .error e => .error e
        | .ok (ws, fs) => .ok (b.weight :: ws, fovArr :: fs)

/-- The tail of `viewshed`: stack the collected FOV rasters (`np.stack`
raises on an empty list), multiply by the weights, and divide by the total
weight:
`(fov_pct_stacked * weights[:, None, None]).sum(axis=0) / sum(weights)`. -/
def viewshedFovWeighted {P : Type} [Fintype P] (nanVal : ℚ) (fov : List FovRow)
    (rd_m hh_m : ℚ) (obst distBin : P → ℚ) (lookClass : ℚ → P → ℤ)
    (buckets : List WindBucket) : Except String (P → ℚ) :=
  match fovLoop nanVal fov rd_m hh_m obst distBin lookClass buckets with
  | .error e => .error e
  | .ok (ws, fs) =>
    if ws.isEmpty then .error "need at least one array to stack"
    else
      .ok (fun p =>
        (List.zipWith (fun w f => w * f p) ws fs).sum / ws.sum)

/-! ### Distance binning (via_wind/visibility.py, `bin_distances`) -/

/-- `distance_values[np.abs(d - distance_values).argmin()]` for one pixel:
the level of the table's distinct-level sequence minimizing the absolute
difference, the earliest such level on ties (`np.argmin` returns the first
minimizing index). -/
def argminAbsLevel (d : ℚ) : List ℚ → Option ℚ
  | [] => none
  | l :: ls =>
    match argminAbsLevel d ls with
    | none => some l
    | some m => if |d - m| < |d - l| then some m else some l

/-- `bin_distances(fov_df, distance_array)` at one pixel with distance `d`
(`none` embeds the numpy error on an empty level sequence). -/
def bin_distances (fov : List FovRow) (d : ℚ) : Option ℚ :=
  argminAbsLevel d (distanceLevels fov)

/-! ### Look-angle classification (via_wind/measures.py,
`classify_look_angle`)

The classification acts elementwise on the look-angle array; it is embedded
on one scalar.  The input of the fold/bucket stage is the look angle
produced by `calc_lookangle` (a value in `[0, 180]` in exact arithmetic). -/

/-- `lookangle[lookangle > 90] = 180 - lookangle[lookangle > 90]`. -/
def foldLookangle (x : ℚ) : ℚ := if x > 90 then 180 - x else x

/-- The nested `np.where` chain of `classify_look_angle` on an
already-folded value: 1 = FRONT, 2 = DIAGONAL, 3 = SIDE, -1 = error. -/
def lookClassRaw (x : ℚ) : ℤ :=
  if 0 ≤ x ∧ x < 22.5 then 1
  else if 22.5 ≤ x ∧ x ≤ 67.5 then 2
  else if 67.5 < x ∧ x ≤ 90 then 3
  else -1

/-- `classify_look_angle` on one scalar look angle: fold, bucket, and raise
`ValueError` when the class is `-1` (`if -1 in look_class: raise`). -/
def classify_look_angle (lookangle : ℚ) : Except String ℤ :=
  let folded := foldLookangle lookangle
  let c := lookClassRaw folded
  if c = -1 then
    .error "Some lookangles could not be classified"
  else
    .ok c

/-! ### Block mosaicking (via_wind/raster.py, `mosaic_block`)

A source raster of the VRT is embedded by its `DstRect` pixel bounds
`(x0, y0, x1, y1)` relative to the mosaic extent (as parsed by
`read_vrt_sources`) together with its pixel data in its own pixel space.
The shared mosaic grid is north-up with origin `(X0, Y0)` and square pixel
size `a`; a VRT source's own geotransform has origin
`(X0 + a*x0, Y0 - a*y0)` and the same pixel size, which fixes the world
bounds used by `mosaic_block`'s window computations. -/

structure SourceRaster where
  x0 : ℤ
  y0 : ℤ
  x1 : ℤ
  y1 : ℤ
  data : ℤ → ℤ → ℚ

/-- `vrt_sources_df.intersects(block_box)`: closed axis-aligned rectangle
intersection (shapely `intersects` includes shared boundary points). -/
def intersectsBox (s : SourceRaster) (b0 b1 b2 b3 : ℤ) : Bool :=
  decide (s.x0 ≤ b2 ∧ b0 ≤ s.x1 ∧ s.y0 ≤ b3 ∧ b1 ≤ s.y1)

/-- The body of `mosaic_block`'s source loop: compute the world-coordinate
overlap of the source extent with the block window extent, convert it to a
read window in the source's pixel space and to an add window in the block's
pixel space (`rasterio.windows.from_bounds`, `round_lengths`, and the
integer casts used for slicing), and add the windowed source data into the
block buffer (`block_array[...] += src_array`). -/
def addSource (a X0 Y0 : ℚ) (b0 b1 w h : ℤ) (buf : ℤ → ℤ → ℚ)
    (s : SourceRaster) : ℤ → ℤ → ℚ :=
  let blockLeft : ℚ := X0 + a * (b0 : ℚ)
  let blockTop : ℚ := Y0 - a * (b1 : ℚ)
  let blockRight : ℚ := X0 + a * ((b0 : ℚ) + (w : ℚ))
  let blockBottom : ℚ := Y0 - a * ((b1 : ℚ) + (h : ℚ))
  let srcLeft : ℚ := X0 + a * (s.x0 : ℚ)
  let srcTop : ℚ := Y0 - a * (s.y0 : ℚ)
  let srcRight : ℚ := X0 + a * (s.x1 : ℚ)
  let srcBottom : ℚ := Y0 - a * (s.y1 : ℚ)
  let ileft := max srcLeft blockLeft
  let iright := min srcRight blockRight
  let itop := min srcTop blockTop
  let ibottom := max srcBottom blockBottom
  let srcColOff : ℤ := ⌊(ileft - srcLeft) / a⌋
  let srcRowOff : ℤ := ⌊(srcTop - itop) / a⌋
  let rw : ℤ := ⌊(iright - ileft) / a⌋
  let rh : ℤ := ⌊(itop - ibottom) / a⌋
  let addColOff : ℤ := ⌊(ileft - blockLeft) / a⌋
  let addRowOff : ℤ := ⌊(blockTop - itop) / a⌋
  fun r c =>
    if addRowOff ≤ r ∧ r < addRowOff + rh ∧ addColOff ≤ c ∧ c < addColOff + rw
    then
      buf r c + s.data (srcRowOff + (r - addRowOff)) (srcColOff + (c - addColOff))
    else
      buf r c

/-- The persisted result of one `mosaic_block` call. -/
structure MosaicOut where
  outName : String
  outWidth : ℤ
  outHeight : ℤ
  outData : ℤ → ℤ → ℚ

/-- `mosaic_block(vrt_sources_df, full_profile, out_path, col_offset,
row_offset, block_size)`: clip the block bounds to the profile, extend the
bottom by one extra row (the seam-artifact workaround), zero-initialize the
buffer, accumulate every intersecting source's overlapping window, and write
the buffer minus its last row (`block_array[:-1, :]`) under the name
`block_{row_offset}_{col_offset}.tif`. -/
def mosaic_block (sources : List SourceRaster) (W H : ℤ) (a X0 Y0 : ℚ)
    (col_offset row_offset block_size : ℤ) : MosaicOut :=
  let b0 := col_offset
  let b1 := row_offset
  let b2 := min (col_offset + block_size) W
  let b3 := min (row_offset + block_size) H + 1
  let w := b2 - b0
  let h := b3 - b1
  let srcsInBlock := sources.filter (fun s => intersectsBox s b0 b1 b2 b3)
  let buf := srcsInBlock.foldl (addSource a X0 Y0 b0 b1 w h) (fun _ _ => 0)
  { outName := "block_" ++ toString row_offset ++ "_" ++ toString col_offset
      ++ ".tif"
    outWidth := w
    outHeight := h - 1
    outData := buf }

/-- The overlap-window contribution of one source to block pixel `(r, c)`
for a block whose pixel bounds are `(b0, b1, b2, b3)`: the source's value at
the corresponding mosaic pixel when `(r, c)` falls inside the source/block
overlap rectangle shifted into block space, 0 otherwise.  Used to state what
the accumulation loop computes. -/
def sourceContribution (b0 b1 b2 b3 : ℤ) (s : SourceRaster) (r c : ℤ) : ℚ :=
  if max s.y0 b1 - b1 ≤ r ∧ r < min s.y1 b3 - b1 ∧
      max s.x0 b0 - b0 ≤ c ∧ c < min s.x1 b2 - b0 then
    s.data (b1 + r - s.y0) (b0 + c - s.x0)
  else 0

/-! ### Radial geometry (via_wind/measures.py), exact real embedding -/

/-- `np.radians`. -/
noncomputable def np_radians (x : ℝ) : ℝ := x * Real.pi / 180

/-- `np.degrees`. -/
noncomputable def np_degrees (x : ℝ) : ℝ := x * 180 / Real.pi

/-- `np.arctan2(y, x)` on reals (numpy's quadrant conventions;
`arctan2(0, 0) = 0`). -/
noncomputable def np_arctan2 (y x : ℝ) : ℝ :=
  if 0 < x then Real.arctan (y / x)
  else if x < 0 then
    (if 0 ≤ y then Real.arctan (y / x) + Real.pi
     else Real.arctan (y / x) - Real.pi)
  else
    (if 0 < y then Real.pi / 2
     else if y < 0 then -(Real.pi / 2)
     else 0)

/-- The reference-cell index along one axis of length `n` computed by
`calc_distance_and_direction`: `(n - 1) / 2` for even `n`, `n // 2` for odd
`n`. -/
noncomputable def centerIndex (n : ℕ) : ℝ :=
  if n % 2 = 0 then ((n : ℝ) - 1) / 2 else ((n / 2 : ℕ) : ℝ)

/-- The distance array of `calc_distance_and_direction(shape)` at cell
`(r, c)`: `np.hypot(grid_x, grid_y)` with `grid_x = r - center_y`,
`grid_y = c - center_x`. -/
noncomputable def distanceArr (n_rows n_cols r c : ℕ) : ℝ :=
  Real.sqrt (((r : ℝ) - centerIndex n_rows) ^ 2 +
    ((c : ℝ) - centerIndex n_cols) ^ 2)

/-- The direction array of `calc_distance_and_direction(shape)` at cell
`(r, c)`: `np.degrees(np.arctan2(grid_x, grid_y) + np.pi / 2)` with
negatives shifted into `[0, 360)`. -/
noncomputable def directionArr (n_rows n_cols r c : ℕ) : ℝ :=
  let gx := (r : ℝ) - centerIndex n_rows
  let gy := (c : ℝ) - centerIndex n_cols
  let d := np_degrees (np_arctan2 gx gy + Real.pi / 2)
  if d < 0 then d + 360 else d

/-! ### Look angle (via_wind/measures.py, `calc_lookangle`), exact real
embedding.  The source casts the float64 dot product to float32 before the
arccosine ("to avoid very rare floating point errors that push this out of
range"); in exact arithmetic that cast is the identity and the dot product
is already in range. -/

/-- The dot product `np.dot(vector_dir.T, vector_turb)` of the two unit
bearing vectors for one pixel. -/
noncomputable def calc_lookangle_dot (direction_from_turbine turbine_bearing : ℝ) : ℝ :=
  Real.sin (np_radians direction_from_turbine) *
    Real.sin (np_radians turbine_bearing) +
  Real.cos (np_radians direction_from_turbine) *
    Real.cos (np_radians turbine_bearing)

/-- `calc_lookangle(direction_from_turbine, turbine_bearing)` for one pixel:
`np.degrees(np.arccos(dot))`. -/
noncomputable def calc_lookangle (direction_from_turbine turbine_bearing : ℝ) : ℝ :=
  np_degrees (Real.arccos (calc_lookangle_dot direction_from_turbine turbine_bearing))

/-! ## Helper lemmas: the height fold as a pointwise minimum -/

/-- Pointwise view of the array-valued fold of the height loop. -/
theorem composite_foldl_apply {P : Type} (oracle : ℚ → P → Bool)
    (hs : List ℚ) (g : P → ℚ) (p : P) :
    hs.foldl (fun acc h => fun q => min (visibleHeightArray oracle h q) (acc q)) g p
      = hs.foldl (fun a h => min (visibleHeightArray oracle h p) a) (g p) := by
  induction hs generalizing g with
  | nil => rfl
  | cons h t ih => exact ih _

/-- Pulling the seed through a `foldr min`. -/
theorem foldr_min_min (x i : ℚ) (l : List ℚ) :
    l.foldr min (min x i) = min x (l.foldr min i) := by
  induction l with
  | nil => rfl
  | cons a t ih => simp only [List.foldr_cons, ih, min_left_comm]

/-- The accumulator-style minimum fold equals the `foldr` minimum of the
mapped list. -/
theorem foldl_min_eq_foldr (f : ℚ → ℚ) (i : ℚ) (l : List ℚ) :
    l.foldl (fun a h => min (f h) a) i = (l.map f).foldr min i := by
  induction l generalizing i with
  | nil => rfl
  | cons a t ih =>
    simp only [List.foldl_cons, List.map_cons, List.foldr_cons, ih,
      foldr_min_min]

/-- The composite at a pixel is the `foldr min` of the recoded samples. -/
theorem compositeVisibility_eq_foldr {P : Type} (oracle : ℚ → P → Bool)
    (hs : List ℚ) (p : P) :
    compositeVisibility oracle hs p
      = (hs.map (fun h => visibleHeightArray oracle h p)).foldr min
          NOT_VISIBLE_VALUE := by
  unfold compositeVisibility
  rw [composite_foldl_apply, foldl_min_eq_foldr]
  rfl

/-- The composite at a pixel, accumulator form. -/
theorem compositeVisibility_eq_foldl {P : Type} (oracle : ℚ → P → Bool)
    (hs : List ℚ) (p : P) :
    compositeVisibility oracle hs p
      = hs.foldl (fun a h => min (visibleHeightArray oracle h p) a)
          NOT_VISIBLE_VALUE := by
  unfold compositeVisibility
  rw [composite_foldl_apply]
  rfl

/-- Case analysis behind the sentinel invariant: after folding any list of
height samples that are all below the sentinel, each pixel either carries
the sentinel (and was visible at none of the samples) or carries a sampled
height that is a minimum visible one. -/
theorem composite_sentinel_cases {P : Type} (oracle : ℚ → P → Bool) :
    ∀ hs : List ℚ, (∀ h ∈ hs, h < NOT_VISIBLE_VALUE) → ∀ p : P,
      (compositeVisibility oracle hs p = NOT_VISIBLE_VALUE ∧
        ∀ h ∈ hs, oracle h p = false) ∨
      (compositeVisibility oracle hs p ∈ hs ∧
        oracle (compositeVisibility oracle hs p) p = true ∧
        ∀ h ∈ hs, oracle h p = true → compositeVisibility oracle hs p ≤ h) := by
  intro hs
  induction hs with
  | nil =>
    intro _ p
    left
    exact ⟨rfl, by simp⟩
  | cons h t ih =>
    intro hlt p
    have hcons : compositeVisibility oracle (h :: t) p
        = min (visibleHeightArray oracle h p) (compositeVisibility oracle t p) := by
      rw [compositeVisibility_eq_foldr, compositeVisibility_eq_foldr]
      rfl
    have hltt : ∀ x ∈ t, x < NOT_VISIBLE_VALUE :=
      fun x hx => hlt x (List.mem_cons_of_mem _ hx)
    have hh : h < NOT_VISIBLE_VALUE := hlt h (List.mem_cons_self _ _)
    by_cases hc : oracle h p
    · have hv : visibleHeightArray oracle h p = h := if_pos hc
      rcases ih hltt p with ⟨he, hall⟩ | ⟨hm, ho, hmin⟩
      · right
        have : compositeVisibility oracle (h :: t) p = h := by
          rw [hcons, hv, he, min_eq_left hh.le]
        rw [this]
        refine ⟨List.mem_cons_self _ _, hc, ?_⟩
        intro h' hmem hvis
        rcases List.mem_cons.mp hmem with rfl | hmem'
        · exact le_refl _
        · exact absurd hvis (by simp [hall h' hmem'])
      · rcases le_total h (compositeVisibility oracle t p) with hle | hle
        · right
          have : compositeVisibility oracle (h :: t) p = h := by
            rw [hcons, hv, min_eq_left hle]
          rw [this]
          refine ⟨List.mem_cons_self _ _, hc, ?_⟩
          intro h' hmem hvis
          rcases List.mem_cons.mp hmem with rfl | hmem'
          · exact le_refl _
          · exact le_trans hle (hmin h' hmem' hvis)
        · right
          have : compositeVisibility oracle (h :: t) p
              = compositeVisibility oracle t p := by
            rw [hcons, hv, min_eq_right hle]
          rw [this]
          refine ⟨List.mem_cons_of_mem _ hm, ho, ?_⟩
          intro h' hmem hvis
          rcases List.mem_cons.mp hmem with rfl | hmem'
          · exact hle
          · exact hmin h' hmem' hvis
    · have hv : visibleHeightArray oracle h p = NOT_VISIBLE_VALUE :=
        if_neg hc
      rcases ih hltt p with ⟨he, hall⟩ | ⟨hm, ho, hmin⟩
      · left
        constructor
        · rw [hcons, hv, he, min_self]
        · intro h' hmem
          rcases List.mem_cons.mp hmem with rfl | hmem'
          · exact Bool.eq_false_iff.mpr hc
          · exact hall h' hmem'
      · right
        have : compositeVisibility oracle (h :: t) p
            = compositeVisibility oracle t p := by
          rw [hcons, hv, min_eq_right (hltt _ hm).le]
        rw [this]
        refine ⟨List.mem_cons_of_mem _ hm, ho, ?_⟩
        intro h' hmem hvis
        rcases List.mem_cons.mp hmem with rfl | hmem'
        · exact absurd hvis (by simp [hc])
        · exact hmin h' hmem' hvis

/-! ## Claim C1 -/

/-- C1: the visibility composite produced by folding per-height oracle
results is, at every pixel, the minimum over all sampled heights of (height
where the oracle reports visible, sentinel where not); folding in one more
height sample never increases any pixel's composite value; and every fold
order (any permutation) of the same height samples yields the identical
composite. -/
theorem C1_compositeVisibility_elementwise_min {P : Type}
    (oracle : ℚ → P → Bool) (heights : List ℚ) :
    (∀ p, compositeVisibility oracle heights p
        = (heights.map (fun h => visibleHeightArray oracle h p)).foldr min
            NOT_VISIBLE_VALUE) ∧
    (∀ (h : ℚ) (p : P), compositeVisibility oracle (heights ++ [h]) p ≤
        compositeVisibility oracle heights p) ∧
    (∀ heights' : List ℚ, heights.Perm heights' →
        compositeVisibility oracle heights
          = compositeVisibility oracle heights') := by
  refine ⟨fun p => compositeVisibility_eq_foldr oracle heights p, ?_, ?_⟩
  · intro h p
    rw [compositeVisibility_eq_foldr, compositeVisibility_eq_foldr,
      List.map_append]
    simp only [List.foldr_append, List.map_cons, List.map_nil,
      List.foldr_cons, List.foldr_nil]
    rw [foldr_min_min]
    exact min_le_right _ _
  · intro heights' hperm
    funext p
    rw [compositeVisibility_eq_foldl, compositeVisibility_eq_foldl]
    haveI : RightCommutative
        (fun (a : ℚ) (h : ℚ) => min (visibleHeightArray oracle h p) a) :=
      ⟨fun a b c => min_left_comm _ _ a⟩
    exact hperm.foldl_eq _

/-- Witness for C1: a concrete oracle and height ladder, with the
permutation clause applied to a concrete reordering and the composite
evaluated at a concrete pixel. -/
theorem C1_compositeVisibility_elementwise_min_witness :
    compositeVisibility (fun h (_ : Unit) => decide (20 ≤ h)) [40, 20]
      = compositeVisibility (fun h (_ : Unit) => decide (20 ≤ h)) [20, 40] ∧
    compositeVisibility (fun h (_ : Unit) => decide (20 ≤ h)) [40, 20] () = 20 :=
  ⟨(C1_compositeVisibility_elementwise_min
      (fun h (_ : Unit) => decide (20 ≤ h)) [40, 20]).2.2 [20, 40]
      (List.Perm.swap 20 40 []),
    by decide⟩

/-! ## Claim C10 -/

/-- C10: the not-visible sentinel is the concrete value 58368, and for every
ladder whose heights are all strictly below 58368, after every fold step
(every prefix of the ladder) each pixel of the composite is either exactly
one of the sampled heights — a minimum height at which the oracle reported
it visible — or exactly 58368 when it was visible at no sampled height. -/
theorem C10_composite_sentinel_invariant {P : Type} (oracle : ℚ → P → Bool)
    (heights : List ℚ)
    (hlt : ∀ h ∈ heights, h < NOT_VISIBLE_VALUE) :
    NOT_VISIBLE_VALUE = 58368 ∧
    ∀ (n : ℕ) (p : P),
      (compositeVisibility oracle (heights.take n) p = 58368 ∧
        ∀ h ∈ heights.take n, oracle h p = false) ∨
      (compositeVisibility oracle (heights.take n) p ∈ heights.take n ∧
        oracle (compositeVisibility oracle (heights.take n) p) p = true ∧
        ∀ h ∈ heights.take n, oracle h p = true →
          compositeVisibility oracle (heights.take n) p ≤ h) := by
  refine ⟨rfl, fun n p => ?_⟩
  have htake : ∀ h ∈ heights.take n, h < NOT_VISIBLE_VALUE :=
    fun h hm => hlt h (List.take_subset n heights hm)
  exact composite_sentinel_cases oracle (heights.take n) htake p

/-- Witness for C10: a concrete ladder below the sentinel, evaluated at the
full prefix of a concrete two-height ladder and one pixel. -/
theorem C10_composite_sentinel_invariant_witness :
    (∀ h ∈ ([0, 20] : List ℚ), h < NOT_VISIBLE_VALUE) ∧
    (NOT_VISIBLE_VALUE = 58368 ∧
      ∀ (n : ℕ) (p : Unit),
        (compositeVisibility (fun h (_ : Unit) => decide (20 ≤ h))
            (([0, 20] : List ℚ).take n) p = 58368 ∧
          ∀ h ∈ (([0, 20] : List ℚ)).take n,
            (fun h (_ : Unit) => decide (20 ≤ h)) h p = false) ∨
        (compositeVisibility (fun h (_ : Unit) => decide (20 ≤ h))
            (([0, 20] : List ℚ).take n) p ∈ (([0, 20] : List ℚ)).take n ∧
          (fun h (_ : Unit) => decide (20 ≤ h))
            (compositeVisibility (fun h (_ : Unit) => decide (20 ≤ h))
              (([0, 20] : List ℚ).take n) p) p = true ∧
          ∀ h ∈ (([0, 20] : List ℚ)).take n,
            (fun h (_ : Unit) => decide (20 ≤ h)) h p = true →
              compositeVisibility (fun h (_ : Unit) => decide (20 ≤ h))
                (([0, 20] : List ℚ).take n) p ≤ h)) :=
  ⟨by decide,
    C10_composite_sentinel_invariant (fun h (_ : Unit) => decide (20 ≤ h))
      [0, 20] (by decide)⟩

/-! ## Claim C5 -/

/-- C5 counterexample: for rotor diameter 80, hub height 80 and interval 31
(the repository's own `test_get_obstruction_heights` case), the max tip
height is 120, yet the ladder is `[0, 31, 62, 93, 124]`: it does not contain
120 and its top element 124 exceeds the max tip height. -/
theorem C5_counterexample :
    get_obstruction_heights 80 80 31 = [0, 31, 62, 93, 124] ∧
    (80 : ℚ) + 80 * (1/2) = 120 ∧
    (120 : ℚ) ∉ get_obstruction_heights 80 80 31 ∧
    ∃ h ∈ get_obstruction_heights 80 80 31, (120 : ℚ) < h := by
  have hc : (⌈((80:ℚ) + 80 * (1/2) + 31) / 31⌉).toNat = 5 := by
    have h5 : ⌈((80:ℚ) + 80 * (1/2) + 31) / 31⌉ = 5 := by
      norm_num [Int.ceil_eq_iff]
    rw [h5]
    rfl
  have hlist : get_obstruction_heights 80 80 31 = [0, 31, 62, 93, 124] := by
    simp only [get_obstruction_heights]
    rw [hc]
    norm_num [List.range_succ]
  refine ⟨hlist, by norm_num, ?_, ?_⟩
  · rw [hlist]
    norm_num [List.mem_cons]
  · exact ⟨124, by rw [hlist]; norm_num [List.mem_cons], by norm_num⟩

/-- C5 (amended): for rotor diameter ≥ 0, hub height ≥ 0 and interval > 0,
the ladder starts at 0, consecutive elements differ by exactly the interval,
it is strictly increasing, and its last element is the smallest multiple of
the interval that is ≥ the max tip height `hh + rd/2` (so it lies in
`[max tip, max tip + interval)` and bounds all elements); the max tip height
itself belongs to the ladder exactly when it is a natural multiple of the
interval — not always, and elements may exceed it, contrary to the original
claim. -/
theorem C5_get_obstruction_heights_ladder (rd hh i : ℚ)
    (hrd : 0 ≤ rd) (hhh : 0 ≤ hh) (hi : 0 < i) :
    (0 : ℚ) ∈ get_obstruction_heights rd hh i ∧
    (get_obstruction_heights rd hh i).head? = some 0 ∧
    (get_obstruction_heights rd hh i).Chain' (fun a b => b = a + i) ∧
    (get_obstruction_heights rd hh i).Chain' (· < ·) ∧
    (∃ lastv, (get_obstruction_heights rd hh i).getLast? = some lastv ∧
      hh + rd * (1/2) ≤ lastv ∧ lastv < hh + rd * (1/2) + i ∧
      ∀ h ∈ get_obstruction_heights rd hh i, h ≤ lastv) ∧
    (hh + rd * (1/2) ∈ get_obstruction_heights rd hh i ↔
      ∃ k : ℕ, hh + rd * (1/2) = (k : ℚ) * i) := by
  set mth : ℚ := hh + rd * (1/2) with hmth
  have hmth0 : 0 ≤ mth := by positivity
  set c : ℤ := ⌈mth / i⌉ with hcdef
  have hc0 : 0 ≤ c := Int.ceil_nonneg (div_nonneg hmth0 hi.le)
  have hstep : (mth + i) / i = mth / i + 1 := by
    rw [add_div, div_self hi.ne']
  have hceil : ⌈(mth + i) / i⌉ = c + 1 := by
    rw [hstep, Int.ceil_add_one]
  have hnat : (⌈(mth + i) / i⌉).toNat = c.toNat + 1 := by
    rw [hceil]; omega
  have hdef : get_obstruction_heights rd hh i
      = (List.range (c.toNat + 1)).map (fun k : ℕ => (k : ℚ) * i) := by
    simp only [get_obstruction_heights, hmth]
    rw [hnat]
  have hcast : ((c.toNat : ℕ) : ℚ) = (c : ℚ) := by
    exact_mod_cast congrArg (fun z : ℤ => (z : ℚ)) (Int.toNat_of_nonneg hc0)
  have hlastge : mth ≤ (c.toNat : ℚ) * i := by
    rw [hcast]
    calc mth = (mth / i) * i := by rw [div_mul_cancel₀ _ hi.ne']
    _ ≤ (c : ℚ) * i := by
        apply mul_le_mul_of_nonneg_right _ hi.le
        exact_mod_cast Int.le_ceil (mth / i)
  have hlastlt : (c.toNat : ℚ) * i < mth + i := by
    rw [hcast]
    have h1 : (c : ℚ) < mth / i + 1 := by
      exact_mod_cast Int.ceil_lt_add_one (mth / i)
    calc (c : ℚ) * i < (mth / i + 1) * i := by
          exact mul_lt_mul_of_pos_right h1 hi
    _ = mth + i := by rw [add_mul, one_mul, div_mul_cancel₀ _ hi.ne']
  have hmem : ∀ x : ℚ, x ∈ get_obstruction_heights rd hh i ↔
      ∃ k : ℕ, k < c.toNat + 1 ∧ x = (k : ℚ) * i := by
    intro x
    rw [hdef]
    simp only [List.mem_map, List.mem_range]
    constructor
    · rintro ⟨k, hk, rfl⟩; exact ⟨k, hk, rfl⟩
    · rintro ⟨k, hk, rfl⟩; exact ⟨k, hk, rfl⟩
  refine ⟨?_, ?_, ?_, ?_, ?_, ?_⟩
  · rw [hmem]
    exact ⟨0, Nat.succ_pos _, by norm_num⟩
  · rw [hdef, List.head?_map]
    have : (List.range (c.toNat + 1)).head? = some 0 := by
      rw [List.range_succ_eq_map]
      rfl
    rw [this]
    simp
  · rw [hdef, List.chain'_map, List.chain'_range_succ]
    intro m _
    push_cast
    ring
  · rw [hdef, List.chain'_map, List.chain'_range_succ]
    intro m _
    have : ((m : ℚ) + 1) * i = (m : ℚ) * i + i := by ring
    push_cast
    nlinarith
  · refine ⟨(c.toNat : ℚ) * i, ?_, hlastge, hlastlt, ?_⟩
    · rw [hdef, List.range_succ, List.map_append]
      simp
    · intro h hh'
      rw [hmem] at hh'
      obtain ⟨k, hk, rfl⟩ := hh'
      apply mul_le_mul_of_nonneg_right _ hi.le
      exact_mod_cast Nat.lt_succ_iff.mp hk
  · constructor
    · intro hmemm
      rw [hmem] at hmemm
      obtain ⟨k, _, hke⟩ := hmemm
      exact ⟨k, hke⟩
    · rintro ⟨k, hke⟩
      rw [hmem]
      refine ⟨k, ?_, hke⟩
      have hkc : (k : ℚ) * i ≤ (c.toNat : ℚ) * i := by rw [← hke]; exact hlastge
      have : (k : ℚ) ≤ (c.toNat : ℚ) :=
        le_of_mul_le_mul_right hkc hi
      have : k ≤ c.toNat := by exact_mod_cast this
      omega

/-- Witness for C5 (amended): the ladder for rotor diameter 80, hub height
80, interval 31. -/
theorem C5_get_obstruction_heights_ladder_witness :
    (0 : ℚ) ∈ get_obstruction_heights 80 80 31 ∧
    (get_obstruction_heights 80 80 31).head? = some 0 ∧
    (get_obstruction_heights 80 80 31).Chain' (fun a b => b = a + 31) ∧
    (get_obstruction_heights 80 80 31).Chain' (· < ·) ∧
    (∃ lastv, (get_obstruction_heights 80 80 31).getLast? = some lastv ∧
      (80 : ℚ) + 80 * (1/2) ≤ lastv ∧ lastv < 80 + 80 * (1/2) + 31 ∧
      ∀ h ∈ get_obstruction_heights 80 80 31, h ≤ lastv) ∧
    ((80 : ℚ) + 80 * (1/2) ∈ get_obstruction_heights 80 80 31 ↔
      ∃ k : ℕ, (80 : ℚ) + 80 * (1/2) = (k : ℚ) * 31) :=
  C5_get_obstruction_heights_ladder 80 80 31 (by norm_num) (by norm_num)
    (by norm_num)

/-! ## Claim C8 -/

/-- C8: `classify_look_angle` folds look angles greater than 90 degrees back
into `[0, 90]` via `180 - angle`, then returns FRONT (1) for folded angles
in `[0, 22.5)`, DIAGONAL (2) in `[22.5, 67.5]`, SIDE (3) in `(67.5, 90]`,
and raises (never silently defaults) for any folded value outside
`[0, 90]`. -/
theorem C8_classify_look_angle_buckets (x : ℚ) :
    (90 < x → foldLookangle x = 180 - x) ∧
    (x ≤ 90 → foldLookangle x = x) ∧
    (0 ≤ foldLookangle x ∧ foldLookangle x < 22.5 →
      classify_look_angle x = Except.ok 1) ∧
    (22.5 ≤ foldLookangle x ∧ foldLookangle x ≤ 67.5 →
      classify_look_angle x = Except.ok 2) ∧
    (67.5 < foldLookangle x ∧ foldLookangle x ≤ 90 →
      classify_look_angle x = Except.ok 3) ∧
    (foldLookangle x < 0 ∨ 90 < foldLookangle x →
      ∃ e, classify_look_angle x = Except.error e) := by
  have hcl : classify_look_angle x =
      (if lookClassRaw (foldLookangle x) = -1 then
        Except.error "Some lookangles could not be classified"
      else Except.ok (lookClassRaw (foldLookangle x))) := rfl
  refine ⟨fun h => if_pos h, fun h => if_neg (not_lt.mpr h), ?_, ?_, ?_, ?_⟩
  · rintro ⟨h1, h2⟩
    have hraw : lookClassRaw (foldLookangle x) = 1 := by
      unfold lookClassRaw
      rw [if_pos ⟨h1, h2⟩]
    rw [hcl, hraw]
    norm_num
  · rintro ⟨h1, h2⟩
    have hraw : lookClassRaw (foldLookangle x) = 2 := by
      unfold lookClassRaw
      rw [if_neg (by push_neg; intro _; linarith), if_pos ⟨h1, h2⟩]
    rw [hcl, hraw]
    norm_num
  · rintro ⟨h1, h2⟩
    have hraw : lookClassRaw (foldLookangle x) = 3 := by
      unfold lookClassRaw
      rw [if_neg (by push_neg; intro _; linarith),
        if_neg (by push_neg; intro _; linarith), if_pos ⟨h1, h2⟩]
    rw [hcl, hraw]
    norm_num
  · intro hout
    have hraw : lookClassRaw (foldLookangle x) = -1 := by
      unfold lookClassRaw
      rcases hout with hlt | hgt
      · rw [if_neg (by push_neg; intro h; linarith),
          if_neg (by push_neg; intro h; linarith),
          if_neg (by push_neg; intro h; linarith)]
      · rw [if_neg (by push_neg; intro _; linarith),
          if_neg (by push_neg; intro _; linarith),
          if_neg (by push_neg; intro _; linarith)]
    exact ⟨_, by rw [hcl, hraw, if_pos rfl]⟩

/-- Witness for C8: a look angle of 100 degrees folds to 80 and classifies
as SIDE (3); a look angle of 200 folds to -20 and raises. -/
theorem C8_classify_look_angle_buckets_witness :
    (67.5 < foldLookangle 100 ∧ foldLookangle 100 ≤ 90) ∧
    classify_look_angle 100 = Except.ok 3 ∧
    (foldLookangle 200 < 0 ∨ 90 < foldLookangle 200) ∧
    (∃ e, classify_look_angle 200 = Except.error e) := by
  have h100 : (67.5 < foldLookangle 100 ∧ foldLookangle 100 ≤ 90) := by
    norm_num [foldLookangle]
  have h200 : foldLookangle 200 < 0 ∨ 90 < foldLookangle 200 := by
    norm_num [foldLookangle]
  exact ⟨h100, (C8_classify_look_angle_buckets 100).2.2.2.2.1 h100,
    h200, (C8_classify_look_angle_buckets 200).2.2.2.2.2 h200⟩

/-! ## Claim C6 helper lemmas -/

/-- Membership in the deduplication helper. -/
theorem mem_uniqueKeepFirstAux {α : Type} [DecidableEq α] (x : α) :
    ∀ (l seen : List α), x ∈ uniqueKeepFirstAux seen l ↔ x ∈ l ∧ x ∉ seen := by
  intro l
  induction l with
  | nil =>
    intro seen
    simp [uniqueKeepFirstAux]
  | cons a rest ih =>
    intro seen
    by_cases ha : a ∈ seen
    · rw [uniqueKeepFirstAux, if_pos ha, ih]
      constructor
      · rintro ⟨hx, hn⟩
        exact ⟨List.mem_cons_of_mem _ hx, hn⟩
      · rintro ⟨hx, hn⟩
        rcases List.mem_cons.mp hx with rfl | hx'
        · exact absurd ha hn
        · exact ⟨hx', hn⟩
    · rw [uniqueKeepFirstAux, if_neg ha]
      simp only [List.mem_cons, ih]
      constructor
      · rintro (rfl | ⟨hx, hn⟩)
        · exact ⟨Or.inl rfl, ha⟩
        · exact ⟨Or.inr hx, fun hc => hn (Or.inr hc)⟩
      · rintro ⟨rfl | hx, hn⟩
        · exact Or.inl rfl
        · by_cases hxa : x = a
          · exact Or.inl hxa
          · exact Or.inr ⟨hx, by simp [List.mem_cons, hxa, hn]⟩

/-- The deduplication helper returns a duplicate-free list. -/
theorem nodup_uniqueKeepFirstAux {α : Type} [DecidableEq α] :
    ∀ (l seen : List α), (uniqueKeepFirstAux seen l).Nodup := by
  intro l
  induction l with
  | nil =>
    intro seen
    simp [uniqueKeepFirstAux]
  | cons a rest ih =>
    intro seen
    by_cases ha : a ∈ seen
    · rw [uniqueKeepFirstAux, if_pos ha]
      exact ih _
    · rw [uniqueKeepFirstAux, if_neg ha]
      refine List.nodup_cons.mpr ⟨?_, ih _⟩
      rw [mem_uniqueKeepFirstAux]
      rintro ⟨-, hn⟩
      exact hn (List.mem_cons_self _ _)

/-- `uniqueKeepFirst` keeps exactly the values of the input. -/
theorem mem_uniqueKeepFirst {α : Type} [DecidableEq α] (x : α) (l : List α) :
    x ∈ uniqueKeepFirst l ↔ x ∈ l := by
  rw [uniqueKeepFirst, mem_uniqueKeepFirstAux]
  simp

/-- `uniqueKeepFirst` returns a duplicate-free list. -/
theorem nodup_uniqueKeepFirst {α : Type} [DecidableEq α] (l : List α) :
    (uniqueKeepFirst l).Nodup :=
  nodup_uniqueKeepFirstAux l []

/-- The first-minimum selector: its result is a member, minimizes the
absolute difference, and on ties has the smallest index in the (duplicate
free) level sequence. -/
theorem argminAbsLevel_spec (d : ℚ) :
    ∀ ls : List ℚ, ls.Nodup → ls ≠ [] →
      ∃ v, argminAbsLevel d ls = some v ∧ v ∈ ls ∧
        (∀ l ∈ ls, |d - v| ≤ |d - l|) ∧
        (∀ l ∈ ls, |d - l| = |d - v| → ls.indexOf v ≤ ls.indexOf l) := by
  intro ls
  induction ls with
  | nil =>
    intro _ h
    exact absurd rfl h
  | cons a t ih =>
    intro hnd _
    have hat : a ∉ t := (List.nodup_cons.mp hnd).1
    have hndt : t.Nodup := (List.nodup_cons.mp hnd).2
    by_cases ht : t = []
    · subst ht
      refine ⟨a, rfl, List.mem_cons_self _ _, ?_, ?_⟩
      · intro l hl
        rcases List.mem_cons.mp hl with rfl | hl'
        · exact le_refl _
        · exact absurd hl' (List.not_mem_nil _)
      · intro l hl _
        rw [List.indexOf_cons_self]
        exact Nat.zero_le _
    · obtain ⟨m, hmeq, hmem, hmin, htie⟩ := ih hndt ht
      have hma : m ≠ a := fun h => hat (h ▸ hmem)
      have hstep : argminAbsLevel d (a :: t)
          = if |d - m| < |d - a| then some m else some a := by
        show (match argminAbsLevel d t with
          | none => some a
          | some m => if |d - m| < |d - a| then some m else some a) = _
        rw [hmeq]
      by_cases hlt : |d - m| < |d - a|
      · refine ⟨m, by rw [hstep, if_pos hlt],
          List.mem_cons_of_mem _ hmem, ?_, ?_⟩
        · intro l hl
          rcases List.mem_cons.mp hl with rfl | hl'
          · exact hlt.le
          · exact hmin l hl'
        · intro l hl hle
          rcases List.mem_cons.mp hl with rfl | hl'
          · rw [hle] at hlt
            exact absurd hlt (lt_irrefl _)
          · have hla : l ≠ a := fun h => hat (h ▸ hl')
            rw [List.indexOf_cons_ne _ hma.symm, List.indexOf_cons_ne _ hla.symm]
            exact Nat.succ_le_succ (htie l hl' hle)
      · refine ⟨a, by rw [hstep, if_neg hlt], List.mem_cons_self _ _, ?_, ?_⟩
        · intro l hl
          rcases List.mem_cons.mp hl with rfl | hl'
          · exact le_refl _
          · exact le_trans (not_lt.mp hlt) (hmin l hl')
        · intro l hl _
          rw [List.indexOf_cons_self]
          exact Nat.zero_le _

/-! ## Claim C6 -/

/-- C6: for a nonempty lookup table, `bin_distances` maps a pixel's distance
to exactly one of the table's distinct levels — the one minimizing the
absolute difference, with exact ties resolved to the level of lower index in
the table's level sequence — so between two value-adjacent levels bracketing
the pixel the bin boundary lies at their midpoint (below the midpoint the
lower level wins, above it the higher one; the first and last bins are
unbounded below and above since every distance gets some level). -/
theorem C6_bin_distances_nearest (fov : List FovRow) (d : ℚ) (hne : fov ≠ []) :
    ∃ v, bin_distances fov d = some v ∧ v ∈ distanceLevels fov ∧
      (∀ l ∈ distanceLevels fov, |d - v| ≤ |d - l|) ∧
      (∀ l ∈ distanceLevels fov, |d - l| = |d - v| →
        (distanceLevels fov).indexOf v ≤ (distanceLevels fov).indexOf l) ∧
      (∀ lo hi, lo ∈ distanceLevels fov → hi ∈ distanceLevels fov →
        lo ≤ d → d ≤ hi →
        (∀ m ∈ distanceLevels fov, ¬(lo < m ∧ m < hi)) →
        (2 * d < lo + hi → v = lo) ∧ (lo + hi < 2 * d → v = hi)) := by
  have hlne : distanceLevels fov ≠ [] := by
    cases fov with
    | nil => exact absurd rfl hne
    | cons r rest => simp [distanceLevels, uniqueKeepFirst, uniqueKeepFirstAux]
  obtain ⟨v, hveq, hvmem, hvmin, hvtie⟩ :=
    argminAbsLevel_spec d (distanceLevels fov) (nodup_uniqueKeepFirst _) hlne
  refine ⟨v, hveq, hvmem, hvmin, hvtie, ?_⟩
  intro lo hi hlo hhi hlod hdhi hgap
  constructor
  · intro hmid
    rcases lt_trichotomy v lo with hv | hv | hv
    · exfalso
      have h1 := hvmin lo hlo
      have habs1 : |d - v| = d - v := abs_of_nonneg (by linarith)
      have habs2 : |d - lo| = d - lo := abs_of_nonneg (by linarith)
      linarith
    · exact hv
    · exfalso
      have hge : hi ≤ v := by
        by_contra hc
        exact hgap v hvmem ⟨hv, not_le.mp hc⟩
      have h1 := hvmin lo hlo
      have habs1 : |d - v| = v - d := by
        rw [abs_of_nonpos (by linarith)]
        ring
      have habs2 : |d - lo| = d - lo := abs_of_nonneg (by linarith)
      linarith
  · intro hmid
    rcases lt_trichotomy v hi with hv | hv | hv
    · exfalso
      have hle : v ≤ lo := by
        by_contra hc
        exact hgap v hvmem ⟨not_le.mp hc, hv⟩
      have h1 := hvmin hi hhi
      have habs1 : |d - v| = d - v := abs_of_nonneg (by linarith)
      have habs2 : |d - hi| = hi - d := by
        rw [abs_of_nonpos (by linarith)]
        ring
      linarith
    · exact hv
    · exfalso
      have h1 := hvmin hi hhi
      have habs1 : |d - v| = v - d := by
        rw [abs_of_nonpos (by linarith)]
        ring
      have habs2 : |d - hi| = hi - d := by
        rw [abs_of_nonpos (by linarith)]
        ring
      linarith

/-- Witness for C6: a one-row table with distance level 1000 and a pixel at
distance 700. -/
theorem C6_bin_distances_nearest_witness :
    ∃ v, bin_distances [⟨0, 0, 0, 1000, "FRONT", 0⟩] 700 = some v ∧
      v ∈ distanceLevels [⟨0, 0, 0, 1000, "FRONT", 0⟩] ∧
      (∀ l ∈ distanceLevels [⟨0, 0, 0, 1000, "FRONT", 0⟩],
        |(700 : ℚ) - v| ≤ |(700 : ℚ) - l|) ∧
      (∀ l ∈ distanceLevels [⟨0, 0, 0, 1000, "FRONT", 0⟩],
        |(700 : ℚ) - l| = |(700 : ℚ) - v| →
        (distanceLevels [⟨0, 0, 0, 1000, "FRONT", 0⟩]).indexOf v ≤
          (distanceLevels [⟨0, 0, 0, 1000, "FRONT", 0⟩]).indexOf l) ∧
      (∀ lo hi, lo ∈ distanceLevels [⟨0, 0, 0, 1000, "FRONT", 0⟩] →
        hi ∈ distanceLevels [⟨0, 0, 0, 1000, "FRONT", 0⟩] →
        lo ≤ 700 → (700 : ℚ) ≤ hi →
        (∀ m ∈ distanceLevels [⟨0, 0, 0, 1000, "FRONT", 0⟩],
          ¬(lo < m ∧ m < hi)) →
        (2 * 700 < lo + hi → v = lo) ∧ (lo + hi < 2 * (700 : ℚ) → v = hi)) :=
  C6_bin_distances_nearest [⟨0, 0, 0, 1000, "FRONT", 0⟩] 700 (by simp)

/-! ## Claim C4 helper lemmas -/

/-- A sum over a list of per-element counts that are all ≥ 1 is at least the
list length. -/
theorem length_le_sum_map {α : Type} (l : List α) (f : α → ℕ)
    (hf : ∀ x ∈ l, 1 ≤ f x) : l.length ≤ (l.map f).sum := by
  induction l with
  | nil => simp
  | cons a t ih =>
    simp only [List.length_cons, List.map_cons, List.sum_cons]
    have h1 := hf a (List.mem_cons_self _ _)
    have h2 := ih (fun x hx => hf x (List.mem_cons_of_mem _ hx))
    omega

/-- A sum of per-element counts that are all ≤ 1 is at most the list
length. -/
theorem sum_map_le_length {α : Type} (l : List α) (f : α → ℕ)
    (hf : ∀ x ∈ l, f x ≤ 1) : (l.map f).sum ≤ l.length := by
  induction l with
  | nil => simp
  | cons a t ih =>
    simp only [List.length_cons, List.map_cons, List.sum_cons]
    have h1 := hf a (List.mem_cons_self _ _)
    have h2 := ih (fun x hx => hf x (List.mem_cons_of_mem _ hx))
    omega

/-- If all counts are ≤ 1 and one of them is 0, the sum is strictly below
the list length. -/
theorem sum_map_lt_length {α : Type} (l : List α) (f : α → ℕ)
    (hf : ∀ x ∈ l, f x ≤ 1) (hmiss : ∃ x ∈ l, f x = 0) :
    (l.map f).sum < l.length := by
  induction l with
  | nil =>
    obtain ⟨x, hx, -⟩ := hmiss
    exact absurd hx (List.not_mem_nil _)
  | cons a t ih =>
    simp only [List.length_cons, List.map_cons, List.sum_cons]
    have h1 := hf a (List.mem_cons_self _ _)
    have hle := sum_map_le_length t f (fun x hx => hf x (List.mem_cons_of_mem _ hx))
    obtain ⟨x, hx, hx0⟩ := hmiss
    rcases List.mem_cons.mp hx with rfl | hx'
    · omega
    · have := ih (fun y hy => hf y (List.mem_cons_of_mem _ hy)) ⟨x, hx', hx0⟩
      omega

/-- A duplicate-free list whose elements are all equal to a constant has at
most one element. -/
theorem length_le_one_of_nodup_const {α : Type} (l : List α) (k : α)
    (hnd : l.Nodup) (hall : ∀ x ∈ l, x = k) : l.length ≤ 1 := by
  match l with
  | [] => simp
  | [a] => simp
  | a :: b :: t =>
    exfalso
    have ha := hall a (List.mem_cons_self _ _)
    have hb := hall b (List.mem_cons_of_mem _ (List.mem_cons_self _ _))
    have hne : a ≠ b := by
      intro h
      exact (List.nodup_cons.mp hnd).1 (h ▸ List.mem_cons_self b t)
    exact hne (ha.trans hb.symm)

/-- A required key with a matching table row contributes at least one joined
row. -/
theorem filter_key_length_pos (fov : List FovRow) (k : FovKey)
    (h : ∃ r ∈ fov, keyOfRow r = k) :
    1 ≤ (fov.filter (fun r => decide (keyOfRow r = k))).length := by
  obtain ⟨r, hr, hk⟩ := h
  exact List.length_pos_of_mem (List.mem_filter.mpr ⟨hr, by simp [hk]⟩)

/-- With pairwise-distinct table keys, a required key contributes at most
one joined row. -/
theorem filter_key_length_le_one (fov : List FovRow) (k : FovKey)
    (hnd : (fov.map keyOfRow).Nodup) :
    (fov.filter (fun r => decide (keyOfRow r = k))).length ≤ 1 := by
  have hsub : ((fov.filter (fun r => decide (keyOfRow r = k))).map keyOfRow).Sublist
      (fov.map keyOfRow) := (List.filter_sublist _).map _
  have hndl := hnd.sublist hsub
  have hall : ∀ x ∈ (fov.filter (fun r => decide (keyOfRow r = k))).map keyOfRow,
      x = k := by
    intro x hx
    obtain ⟨r, hr, rfl⟩ := List.mem_map.mp hx
    have := (List.mem_filter.mp hr).2
    simpa using this
  calc (fov.filter (fun r => decide (keyOfRow r = k))).length
      = ((fov.filter (fun r => decide (keyOfRow r = k))).map keyOfRow).length := by
        rw [List.length_map]
  _ ≤ 1 := length_le_one_of_nodup_const _ k hndl hall

/-- A required key with no matching table row contributes no joined rows. -/
theorem filter_key_length_zero (fov : List FovRow) (k : FovKey)
    (h : ∀ r ∈ fov, keyOfRow r ≠ k) :
    (fov.filter (fun r => decide (keyOfRow r = k))).length = 0 := by
  rw [List.length_eq_zero, List.filter_eq_nil_iff]
  intro r hr
  simp [h r hr]

/-! ## Claim C4 -/

/-- C4 (amended): the completeness check raises when the table's maximum
distance level (in km) is below the configured maximum analysis distance;
it passes whenever every required combination has at least one exact row;
and when the table's five-column keys are pairwise distinct it raises
whenever some required combination has no exact row.  (Without the
distinct-key proviso a duplicated key can mask a missing combination — see
the counterexample — and the raised error is a fixed message that does not
enumerate the missing combinations.) -/
theorem C4_check_fov_lkup_complete_spec (fov : List FovRow)
    (turbines : List TurbineDims) (obstruction_interval_m max_distance_km : ℚ)
    (turbine_rotations : Option (List String)) :
    (maxFovDistTooSmall fov max_distance_km = true →
      check_fov_lkup_complete fov turbines obstruction_interval_m
          max_distance_km turbine_rotations
        = Except.error "Maximum distance in FOV lookup table is smaller than the maximum distance from the turbine for which visibility will be analyzed.") ∧
    (maxFovDistTooSmall fov max_distance_km = false →
      (∀ k ∈ requiredRecords fov turbines obstruction_interval_m
          max_distance_km (turbine_rotations.getD (TURBINE_ROTATIONS.map (·.1))),
        ∃ r ∈ fov, keyOfRow r = k) →
      check_fov_lkup_complete fov turbines obstruction_interval_m
          max_distance_km turbine_rotations = Except.ok ()) ∧
    (maxFovDistTooSmall fov max_distance_km = false →
      (fov.map keyOfRow).Nodup →
      (∃ k ∈ requiredRecords fov turbines obstruction_interval_m
          max_distance_km (turbine_rotations.getD (TURBINE_ROTATIONS.map (·.1))),
        ∀ r ∈ fov, keyOfRow r ≠ k) →
      check_fov_lkup_complete fov turbines obstruction_interval_m
          max_distance_km turbine_rotations
        = Except.error "Required values are missing from the FOV lookup table.") := by
  refine ⟨fun h => ?_, fun h hall => ?_, fun h hnd hmiss => ?_⟩
  · simp only [check_fov_lkup_complete, h, if_true]
  · have hge : (requiredRecords fov turbines obstruction_interval_m
        max_distance_km (turbine_rotations.getD (TURBINE_ROTATIONS.map (·.1)))).length
        ≤ innerJoinLen fov (requiredRecords fov turbines obstruction_interval_m
          max_distance_km (turbine_rotations.getD (TURBINE_ROTATIONS.map (·.1)))) :=
      length_le_sum_map _ _ (fun k hk => filter_key_length_pos fov k (hall k hk))
    simp only [check_fov_lkup_complete, h, Bool.false_eq_true, if_false]
    rw [if_neg (not_lt.mpr hge)]
  · have hlt : innerJoinLen fov (requiredRecords fov turbines obstruction_interval_m
        max_distance_km (turbine_rotations.getD (TURBINE_ROTATIONS.map (·.1))))
        < (requiredRecords fov turbines obstruction_interval_m
          max_distance_km (turbine_rotations.getD (TURBINE_ROTATIONS.map (·.1)))).length := by
      apply sum_map_lt_length _ _ (fun k _ => filter_key_length_le_one fov k hnd)
      obtain ⟨k, hk, hknone⟩ := hmiss
      exact ⟨k, hk, filter_key_length_zero fov k hknone⟩
    simp only [check_fov_lkup_complete, h, Bool.false_eq_true, if_false]
    rw [if_pos hlt]

set_option maxRecDepth 8000 in
/-- C4 counterexample: a table whose `(0, 0, 0, 1000, "FRONT")` key appears
twice (rows differing only in `pct_fov`) while the required
`(0, 0, 0, 1000, "SIDE")` combination has no row at all.  The inner-join
count still reaches the number of required records (2 + 1 + 0 = 3), so the
check passes even though a required combination is missing — the claim's
"raises whenever any combination has no exact row" is false. -/
theorem C4_counterexample :
    check_fov_lkup_complete
      [⟨0, 0, 0, 1000, "FRONT", 1⟩, ⟨0, 0, 0, 1000, "FRONT", 2⟩,
        ⟨0, 0, 0, 1000, "DIAGONAL", 3⟩]
      [⟨0, 0⟩] 25 1 none = Except.ok () ∧
    ∃ k ∈ requiredRecords
        [⟨0, 0, 0, 1000, "FRONT", 1⟩, ⟨0, 0, 0, 1000, "FRONT", 2⟩,
          ⟨0, 0, 0, 1000, "DIAGONAL", 3⟩]
        [⟨0, 0⟩] 25 1 (TURBINE_ROTATIONS.map (·.1)),
      ∀ r ∈ [(⟨0, 0, 0, 1000, "FRONT", 1⟩ : FovRow),
          ⟨0, 0, 0, 1000, "FRONT", 2⟩, ⟨0, 0, 0, 1000, "DIAGONAL", 3⟩],
        keyOfRow r ≠ k := by
  have hobs : get_obstruction_heights 0 0 25 = [0] := by
    have h1 : ⌈((0:ℚ) + 0 * (1/2) + 25) / 25⌉ = 1 := by norm_num
    have hc : (⌈((0:ℚ) + 0 * (1/2) + 25) / 25⌉).toNat = 1 := by
      rw [h1]
      rfl
    simp only [get_obstruction_heights]
    rw [hc]
    norm_num [List.range_succ]
  have hdist : distanceLevels
      [⟨0, 0, 0, 1000, "FRONT", 1⟩, ⟨0, 0, 0, 1000, "FRONT", 2⟩,
        ⟨0, 0, 0, 1000, "DIAGONAL", 3⟩] = [1000] := by
    decide
  have hfd : fovDistances
      [⟨0, 0, 0, 1000, "FRONT", 1⟩, ⟨0, 0, 0, 1000, "FRONT", 2⟩,
        ⟨0, 0, 0, 1000, "DIAGONAL", 3⟩] 1 = [1000] := by
    rw [fovDistances, hdist]
    norm_num [List.filter]
  have hmax : maxFovDistTooSmall
      [⟨0, 0, 0, 1000, "FRONT", 1⟩, ⟨0, 0, 0, 1000, "FRONT", 2⟩,
        ⟨0, 0, 0, 1000, "DIAGONAL", 3⟩] 1 = false := by
    norm_num [maxFovDistTooSmall, listMaxQ, max_def]
  have htur : uniqueKeepFirst [(⟨0, 0⟩ : TurbineDims)] = [⟨0, 0⟩] := by
    decide
  have hreq : requiredRecords
      [⟨0, 0, 0, 1000, "FRONT", 1⟩, ⟨0, 0, 0, 1000, "FRONT", 2⟩,
        ⟨0, 0, 0, 1000, "DIAGONAL", 3⟩]
      [⟨0, 0⟩] 25 1 (TURBINE_ROTATIONS.map (·.1))
      = [⟨0, 0, 0, 1000, "FRONT"⟩, ⟨0, 0, 0, 1000, "DIAGONAL"⟩,
          ⟨0, 0, 0, 1000, "SIDE"⟩] := by
    rw [requiredRecords, htur]
    simp only [List.flatMap_cons, List.flatMap_nil]
    rw [hobs, hfd]
    rfl
  have hjoin : innerJoinLen
      [⟨0, 0, 0, 1000, "FRONT", 1⟩, ⟨0, 0, 0, 1000, "FRONT", 2⟩,
        ⟨0, 0, 0, 1000, "DIAGONAL", 3⟩]
      [⟨0, 0, 0, 1000, "FRONT"⟩, ⟨0, 0, 0, 1000, "DIAGONAL"⟩,
        ⟨0, 0, 0, 1000, "SIDE"⟩] = 3 := by
    decide
  constructor
  · simp only [check_fov_lkup_complete, hmax, Bool.false_eq_true, if_false,
      Option.getD_none]
    simp only [hreq, hjoin]
    norm_num
  · refine ⟨⟨0, 0, 0, 1000, "SIDE"⟩, ?_, ?_⟩
    · rw [hreq]
      simp
    · decide

set_option maxRecDepth 8000 in
/-- Witness for C4: a table containing exactly the three required rows
passes the check. -/
theorem C4_check_fov_lkup_complete_spec_witness :
    maxFovDistTooSmall
      [⟨0, 0, 0, 1000, "FRONT", 0⟩, ⟨0, 0, 0, 1000, "DIAGONAL", 0⟩,
        ⟨0, 0, 0, 1000, "SIDE", 0⟩] 1 = false ∧
    check_fov_lkup_complete
      [⟨0, 0, 0, 1000, "FRONT", 0⟩, ⟨0, 0, 0, 1000, "DIAGONAL", 0⟩,
        ⟨0, 0, 0, 1000, "SIDE", 0⟩]
      [⟨0, 0⟩] 25 1 none = Except.ok () := by
  have hobs : get_obstruction_heights 0 0 25 = [0] := by
    have h1 : ⌈((0:ℚ) + 0 * (1/2) + 25) / 25⌉ = 1 := by norm_num
    have hc : (⌈((0:ℚ) + 0 * (1/2) + 25) / 25⌉).toNat = 1 := by
      rw [h1]
      rfl
    simp only [get_obstruction_heights]
    rw [hc]
    norm_num [List.range_succ]
  have hdist : distanceLevels
      [⟨0, 0, 0, 1000, "FRONT", 0⟩, ⟨0, 0, 0, 1000, "DIAGONAL", 0⟩,
        ⟨0, 0, 0, 1000, "SIDE", 0⟩] = [1000] := by
    decide
  have hfd : fovDistances
      [⟨0, 0, 0, 1000, "FRONT", 0⟩, ⟨0, 0, 0, 1000, "DIAGONAL", 0⟩,
        ⟨0, 0, 0, 1000, "SIDE", 0⟩] 1 = [1000] := by
    rw [fovDistances, hdist]
    norm_num [List.filter]
  have hmax : maxFovDistTooSmall
      [⟨0, 0, 0, 1000, "FRONT", 0⟩, ⟨0, 0, 0, 1000, "DIAGONAL", 0⟩,
        ⟨0, 0, 0, 1000, "SIDE", 0⟩] 1 = false := by
    norm_num [maxFovDistTooSmall, listMaxQ, max_def]
  have htur : uniqueKeepFirst [(⟨0, 0⟩ : TurbineDims)] = [⟨0, 0⟩] := by
    decide
  have hreq : requiredRecords
      [⟨0, 0, 0, 1000, "FRONT", 0⟩, ⟨0, 0, 0, 1000, "DIAGONAL", 0⟩,
        ⟨0, 0, 0, 1000, "SIDE", 0⟩]
      [⟨0, 0⟩] 25 1 (TURBINE_ROTATIONS.map (·.1))
      = [⟨0, 0, 0, 1000, "FRONT"⟩, ⟨0, 0, 0, 1000, "DIAGONAL"⟩,
          ⟨0, 0, 0, 1000, "SIDE"⟩] := by
    rw [requiredRecords, htur]
    simp only [List.flatMap_cons, List.flatMap_nil]
    rw [hobs, hfd]
    rfl
  refine ⟨hmax, (C4_check_fov_lkup_complete_spec
    [⟨0, 0, 0, 1000, "FRONT", 0⟩, ⟨0, 0, 0, 1000, "DIAGONAL", 0⟩,
      ⟨0, 0, 0, 1000, "SIDE", 0⟩]
    [⟨0, 0⟩] 25 1 none).2.1 hmax ?_⟩
  simp only [Option.getD_none]
  rw [hreq]
  decide

/-! ## Claim C2 helper lemmas -/

/-- Zipping two maps of the same list combines them pointwise. -/
theorem zipWith_map_same {α β γ δ : Type} (l : List α) (g : α → β)
    (h : α → γ) (f : β → γ → δ) :
    List.zipWith f (l.map g) (l.map h) = l.map (fun x => f (g x) (h x)) := by
  induction l with
  | nil => rfl
  | cons a t ih => simp [ih]

/-- The wind-direction accumulation loop succeeds on buckets whose
non-skipped directions are in range and whose lookups never hit a duplicate
key at a visible pixel, returning the weights and per-bucket FOV rasters of
exactly the positive-weight buckets, in order. -/
theorem fovLoop_ok {P : Type} [Fintype P] (nanVal : ℚ) (fov : List FovRow)
    (rd_m hh_m : ℚ) (obst distBin : P → ℚ) (lookClass : ℚ → P → ℤ) :
    ∀ buckets : List WindBucket,
      (∀ b ∈ buckets, 0 < b.weight → 0 ≤ b.winddir ∧ b.winddir ≤ 360) →
      (∀ b ∈ buckets, 0 < b.weight → ∀ p, obst p ≠ NOT_VISIBLE_VALUE →
        (matchingRows fov rd_m hh_m (obst p) (distBin p)
          (lookClass (turbineBearing b.winddir) p)).length ≤ 1) →
      fovLoop nanVal fov rd_m hh_m obst distBin lookClass buckets
        = Except.ok
          ((buckets.filter (fun b => decide (0 < b.weight))).map (·.weight),
            (buckets.filter (fun b => decide (0 < b.weight))).map
              (fun b => fovPctArray nanVal fov rd_m hh_m obst distBin
                (lookClass (turbineBearing b.winddir)))) := by
  intro buckets
  induction buckets with
  | nil =>
    intro _ _
    rfl
  | cons b rest ih =>
    intro hr hd
    have ih' := ih (fun x hx => hr x (List.mem_cons_of_mem _ hx))
      (fun x hx => hd x (List.mem_cons_of_mem _ hx))
    by_cases hw : b.weight ≤ 0
    · rw [fovLoop, if_pos hw, ih']
      have hfil : (b :: rest).filter (fun b => decide (0 < b.weight))
          = rest.filter (fun b => decide (0 < b.weight)) := by
        rw [List.filter_cons]
        simp [not_lt.mpr hw]
      rw [hfil]
    · have hw' : 0 < b.weight := not_le.mp hw
      have hrange := hr b (List.mem_cons_self _ _) hw'
      have hnotout : ¬(b.winddir < 0 ∨ b.winddir > 360) := by
        push_neg
        exact hrange
      have hlkp : lookup_fov_pct nanVal fov rd_m hh_m obst distBin
          (lookClass (turbineBearing b.winddir))
          = Except.ok (fovPctArray nanVal fov rd_m hh_m obst distBin
            (lookClass (turbineBearing b.winddir))) := by
        unfold lookup_fov_pct
        rw [if_neg]
        rintro ⟨p, hnv, h2⟩
        have := hd b (List.mem_cons_self _ _) hw' p hnv
        omega
      rw [fovLoop, if_neg hw, if_neg hnotout, hlkp, ih']
      have hfil : (b :: rest).filter (fun b => decide (0 < b.weight))
          = b :: rest.filter (fun b => decide (0 < b.weight)) := by
        rw [List.filter_cons]
        simp [hw']
      rw [hfil, List.map_cons, List.map_cons]

/-! ## Claim C2 -/

/-- C2: for a turbine with at least one positive wind-direction weight
bucket (and all non-skipped wind directions in `[0, 360]`), the weighted
FOV raster equals, at every pixel, the sum over positive-weight buckets of
`weight * fov_bucket` divided by the sum of those weights, where each
`fov_bucket` uses the turbine bearing `(winddir + 180) mod 360`, assigns 0
without any lookup to pixels whose composite equals the not-visible
sentinel, and takes the table's `pct_fov` row joined on (obstruction
height, distance bin, aspect class) over the table filtered to the turbine
dimensions everywhere else; buckets with weight ≤ 0 contribute to neither
sum.  The hypotheses scope the claim to tables where each visible pixel's
key matches at most one filtered row — otherwise `lookup_fov_pct` raises
the masked-assignment length-mismatch `ValueError` instead of returning —
and to covered keys, under which the result does not depend on the
embedding's stand-in for a join miss (`nanVal`). -/
theorem C2_viewshed_weighted_fov {P : Type} [Fintype P] (nanVal nanVal' : ℚ)
    (fov : List FovRow) (rd_m hh_m : ℚ) (obst distBin : P → ℚ)
    (lookClass : ℚ → P → ℤ) (buckets : List WindBucket)
    (hrange : ∀ b ∈ buckets, 0 < b.weight → 0 ≤ b.winddir ∧ b.winddir ≤ 360)
    (hpos : ∃ b ∈ buckets, 0 < b.weight)
    (hdup : ∀ b ∈ buckets, 0 < b.weight → ∀ p, obst p ≠ NOT_VISIBLE_VALUE →
      (matchingRows fov rd_m hh_m (obst p) (distBin p)
        (lookClass (turbineBearing b.winddir) p)).length ≤ 1)
    (hcover : ∀ b ∈ buckets, 0 < b.weight → ∀ p, obst p ≠ NOT_VISIBLE_VALUE →
      (lookupRow fov rd_m hh_m (obst p) (distBin p)
        (lookClass (turbineBearing b.winddir) p)).isSome = true) :
    viewshedFovWeighted nanVal fov rd_m hh_m obst distBin lookClass buckets
      = Except.ok (fun p =>
        ((buckets.filter (fun b => decide (0 < b.weight))).map
          (fun b => b.weight * fovPctArray nanVal fov rd_m hh_m obst
            distBin (lookClass (turbineBearing b.winddir)) p)).sum
        / ((buckets.filter (fun b => decide (0 < b.weight))).map
            (·.weight)).sum) ∧
    viewshedFovWeighted nanVal fov rd_m hh_m obst distBin lookClass buckets
      = viewshedFovWeighted nanVal' fov rd_m hh_m obst distBin lookClass
          buckets := by
  obtain ⟨b0, hb0, hb0w⟩ := hpos
  have hmemfil : b0 ∈ buckets.filter (fun b => decide (0 < b.weight)) :=
    List.mem_filter.mpr ⟨hb0, by simp [hb0w]⟩
  have hfilne : buckets.filter (fun b => decide (0 < b.weight)) ≠ [] :=
    List.ne_nil_of_mem hmemfil
  have hie : ((buckets.filter (fun b => decide (0 < b.weight))).map
      (·.weight)).isEmpty = false := by
    rw [Bool.eq_false_iff]
    intro ht
    exact hfilne (List.map_eq_nil_iff.mp (List.isEmpty_iff.mp ht))
  have hmain : ∀ nv : ℚ,
      viewshedFovWeighted nv fov rd_m hh_m obst distBin lookClass buckets
        = Except.ok (fun p =>
          ((buckets.filter (fun b => decide (0 < b.weight))).map
            (fun b => b.weight * fovPctArray nv fov rd_m hh_m obst distBin
              (lookClass (turbineBearing b.winddir)) p)).sum
          / ((buckets.filter (fun b => decide (0 < b.weight))).map
              (·.weight)).sum) := by
    intro nv
    have hl := fovLoop_ok nv fov rd_m hh_m obst distBin lookClass buckets
      hrange hdup
    simp only [viewshedFovWeighted, hl, hie, Bool.false_eq_true, if_false]
    refine congrArg Except.ok (funext fun p => ?_)
    rw [zipWith_map_same]
  have hlk : ∀ b ∈ buckets.filter (fun b => decide (0 < b.weight)), ∀ p : P,
      fovPctArray nanVal fov rd_m hh_m obst distBin
        (lookClass (turbineBearing b.winddir)) p
        = fovPctArray nanVal' fov rd_m hh_m obst distBin
          (lookClass (turbineBearing b.winddir)) p := by
    intro b hbf p
    have hbm := (List.mem_filter.mp hbf).1
    have hbw : 0 < b.weight := by
      simpa using (List.mem_filter.mp hbf).2
    unfold fovPctArray
    by_cases hv : obst p = NOT_VISIBLE_VALUE
    · simp [hv]
    · simp only [if_neg hv]
      obtain ⟨r, hr⟩ := Option.isSome_iff_exists.mp (hcover b hbm hbw p hv)
      rw [hr]
  refine ⟨hmain nanVal, ?_⟩
  rw [hmain nanVal, hmain nanVal']
  refine congrArg Except.ok (funext fun p => ?_)
  have : ((buckets.filter (fun b => decide (0 < b.weight))).map
      (fun b => b.weight * fovPctArray nanVal fov rd_m hh_m obst distBin
        (lookClass (turbineBearing b.winddir)) p))
      = ((buckets.filter (fun b => decide (0 < b.weight))).map
        (fun b => b.weight * fovPctArray nanVal' fov rd_m hh_m obst distBin
          (lookClass (turbineBearing b.winddir)) p)) := by
    apply List.map_congr_left
    intro b hbf
    rw [hlk b hbf p]
  rw [this]

/-- Witness for C2: one single-pixel window, a one-row table covering the
pixel's key, and one bucket of weight 1 at wind direction 0 (bearing 180);
the weighted result does not depend on the join-miss stand-in. -/
theorem C2_viewshed_weighted_fov_witness :
    viewshedFovWeighted 7 [⟨0, 0, 0, 1000, "FRONT", 50⟩] 0 0
        (fun _ : Unit => 0) (fun _ => 1000) (fun _ _ => 1) [⟨1, 0⟩]
      = viewshedFovWeighted 9 [⟨0, 0, 0, 1000, "FRONT", 50⟩] 0 0
        (fun _ : Unit => 0) (fun _ => 1000) (fun _ _ => 1) [⟨1, 0⟩] :=
  (C2_viewshed_weighted_fov 7 9 [⟨0, 0, 0, 1000, "FRONT", 50⟩] 0 0
    (fun _ : Unit => 0) (fun _ => 1000) (fun _ _ => 1) [⟨1, 0⟩]
    (by decide)
    (by decide)
    (by
      intro b hb hw p hnv
      have hbear : turbineBearing (0 : ℚ) = 180 := by
        unfold turbineBearing qmod
        norm_num
      rcases List.mem_singleton.mp hb with rfl
      cases p
      rw [show (⟨1, 0⟩ : WindBucket).winddir = 0 from rfl, hbear]
      decide)
    (by
      intro b hb hw p hnv
      have hbear : turbineBearing (0 : ℚ) = 180 := by
        unfold turbineBearing qmod
        norm_num
      rcases List.mem_singleton.mp hb with rfl
      cases p
      rw [show (⟨1, 0⟩ : WindBucket).winddir = 0 from rfl, hbear]
      decide)).2

/-! ## Claim C3 helper lemmas: world-coordinate windows reduce to
pixel-rectangle arithmetic -/

/-- Dividing an `a`-multiple of an integer by `a` and flooring recovers the
integer. -/
theorem floor_mul_div {a : ℚ} (ha : 0 < a) (m : ℤ) :
    ⌊(a * (m : ℚ)) / a⌋ = m := by
  rw [mul_comm, mul_div_assoc, div_self ha.ne', mul_one, Int.floor_intCast]

/-- Max of two points of an increasing affine map. -/
theorem affine_max {a : ℚ} (ha : 0 ≤ a) (X u v : ℚ) :
    max (X + a * u) (X + a * v) = X + a * max u v := by
  rcases le_total u v with h | h
  · rw [max_eq_right (by nlinarith), max_eq_right h]
  · rw [max_eq_left (by nlinarith), max_eq_left h]

/-- Min of two points of an increasing affine map. -/
theorem affine_min {a : ℚ} (ha : 0 ≤ a) (X u v : ℚ) :
    min (X + a * u) (X + a * v) = X + a * min u v := by
  rcases le_total u v with h | h
  · rw [min_eq_left (by nlinarith), min_eq_left h]
  · rw [min_eq_right (by nlinarith), min_eq_right h]

/-- Min of two points of a decreasing affine map (world `y` versus pixel
row). -/
theorem affine_nmin {a : ℚ} (ha : 0 ≤ a) (Y u v : ℚ) :
    min (Y - a * u) (Y - a * v) = Y - a * max u v := by
  rcases le_total u v with h | h
  · rw [max_eq_right h, min_eq_right (by nlinarith)]
  · rw [max_eq_left h, min_eq_left (by nlinarith)]

/-- Max of two points of a decreasing affine map. -/
theorem affine_nmax {a : ℚ} (ha : 0 ≤ a) (Y u v : ℚ) :
    max (Y - a * u) (Y - a * v) = Y - a * min u v := by
  rcases le_total u v with h | h
  · rw [min_eq_left h, max_eq_left (by nlinarith)]
  · rw [min_eq_right h, max_eq_right (by nlinarith)]

/-- One `addSource` step adds exactly the source's overlap-window
contribution at each buffer cell. -/
theorem addSource_apply {a : ℚ} (ha : 0 < a) (X0 Y0 : ℚ) (b0 b1 w h : ℤ)
    (buf : ℤ → ℤ → ℚ) (s : SourceRaster) (r c : ℤ) :
    addSource a X0 Y0 b0 b1 w h buf s r c
      = buf r c + sourceContribution b0 b1 (b0 + w) (b1 + h) s r c := by
  have hsrccol : ⌊(max (X0 + a * (s.x0 : ℚ)) (X0 + a * (b0 : ℚ))
      - (X0 + a * (s.x0 : ℚ))) / a⌋ = max s.x0 b0 - s.x0 := by
    rw [affine_max ha.le,
      show X0 + a * max ((s.x0 : ℚ)) ((b0 : ℚ)) - (X0 + a * (s.x0 : ℚ))
        = a * (max ((s.x0 : ℚ)) ((b0 : ℚ)) - (s.x0 : ℚ)) by ring,
      show max ((s.x0 : ℚ)) ((b0 : ℚ)) - (s.x0 : ℚ)
        = ((max s.x0 b0 - s.x0 : ℤ) : ℚ) by push_cast; ring,
      floor_mul_div ha]
  have hsrcrow : ⌊((Y0 - a * (s.y0 : ℚ))
      - min (Y0 - a * (s.y0 : ℚ)) (Y0 - a * (b1 : ℚ))) / a⌋
      = max s.y0 b1 - s.y0 := by
    rw [affine_nmin ha.le,
      show (Y0 - a * (s.y0 : ℚ)) - (Y0 - a * max ((s.y0 : ℚ)) ((b1 : ℚ)))
        = a * (max ((s.y0 : ℚ)) ((b1 : ℚ)) - (s.y0 : ℚ)) by ring,
      show max ((s.y0 : ℚ)) ((b1 : ℚ)) - (s.y0 : ℚ)
        = ((max s.y0 b1 - s.y0 : ℤ) : ℚ) by push_cast; ring,
      floor_mul_div ha]
  have hrw : ⌊(min (X0 + a * (s.x1 : ℚ)) (X0 + a * ((b0 : ℚ) + (w : ℚ)))
      - max (X0 + a * (s.x0 : ℚ)) (X0 + a * (b0 : ℚ))) / a⌋
      = min s.x1 (b0 + w) - max s.x0 b0 := by
    rw [affine_min ha.le, affine_max ha.le,
      show X0 + a * min ((s.x1 : ℚ)) ((b0 : ℚ) + (w : ℚ))
          - (X0 + a * max ((s.x0 : ℚ)) ((b0 : ℚ)))
        = a * (min ((s.x1 : ℚ)) ((b0 : ℚ) + (w : ℚ))
          - max ((s.x0 : ℚ)) ((b0 : ℚ))) by ring,
      show min ((s.x1 : ℚ)) ((b0 : ℚ) + (w : ℚ)) - max ((s.x0 : ℚ)) ((b0 : ℚ))
        = ((min s.x1 (b0 + w) - max s.x0 b0 : ℤ) : ℚ) by push_cast; ring,
      floor_mul_div ha]
  have hrh : ⌊(min (Y0 - a * (s.y0 : ℚ)) (Y0 - a * (b1 : ℚ))
      - max (Y0 - a * (s.y1 : ℚ)) (Y0 - a * ((b1 : ℚ) + (h : ℚ)))) / a⌋
      = min s.y1 (b1 + h) - max s.y0 b1 := by
    rw [affine_nmin ha.le, affine_nmax ha.le,
      show (Y0 - a * max ((s.y0 : ℚ)) ((b1 : ℚ)))
          - (Y0 - a * min ((s.y1 : ℚ)) ((b1 : ℚ) + (h : ℚ)))
        = a * (min ((s.y1 : ℚ)) ((b1 : ℚ) + (h : ℚ))
          - max ((s.y0 : ℚ)) ((b1 : ℚ))) by ring,
      show min ((s.y1 : ℚ)) ((b1 : ℚ) + (h : ℚ)) - max ((s.y0 : ℚ)) ((b1 : ℚ))
        = ((min s.y1 (b1 + h) - max s.y0 b1 : ℤ) : ℚ) by push_cast; ring,
      floor_mul_div ha]
  have haddcol : ⌊(max (X0 + a * (s.x0 : ℚ)) (X0 + a * (b0 : ℚ))
      - (X0 + a * (b0 : ℚ))) / a⌋ = max s.x0 b0 - b0 := by
    rw [affine_max ha.le,
      show X0 + a * max ((s.x0 : ℚ)) ((b0 : ℚ)) - (X0 + a * (b0 : ℚ))
        = a * (max ((s.x0 : ℚ)) ((b0 : ℚ)) - (b0 : ℚ)) by ring,
      show max ((s.x0 : ℚ)) ((b0 : ℚ)) - (b0 : ℚ)
        = ((max s.x0 b0 - b0 : ℤ) : ℚ) by push_cast; ring,
      floor_mul_div ha]
  have haddrow : ⌊((Y0 - a * (b1 : ℚ))
      - min (Y0 - a * (s.y0 : ℚ)) (Y0 - a * (b1 : ℚ))) / a⌋
      = max s.y0 b1 - b1 := by
    rw [affine_nmin ha.le,
      show (Y0 - a * (b1 : ℚ)) - (Y0 - a * max ((s.y0 : ℚ)) ((b1 : ℚ)))
        = a * (max ((s.y0 : ℚ)) ((b1 : ℚ)) - (b1 : ℚ)) by ring,
      show max ((s.y0 : ℚ)) ((b1 : ℚ)) - (b1 : ℚ)
        = ((max s.y0 b1 - b1 : ℤ) : ℚ) by push_cast; ring,
      floor_mul_div ha]
  simp only [addSource, hsrccol, hsrcrow, hrw, hrh, haddcol, haddrow,
    sourceContribution]
  split_ifs with h1 h2 h2
  · rw [show max s.y0 b1 - s.y0 + (r - (max s.y0 b1 - b1)) = b1 + r - s.y0
      by ring,
      show max s.x0 b0 - s.x0 + (c - (max s.x0 b0 - b0)) = b0 + c - s.x0
      by ring]
  · exfalso
    omega
  · exfalso
    omega
  · rw [add_zero]

/-- Folding the source loop over any source list adds the pointwise sum of
the per-source overlap contributions (summation, never overwriting). -/
theorem mosaic_foldl_apply {a : ℚ} (ha : 0 < a) (X0 Y0 : ℚ)
    (b0 b1 w h : ℤ) :
    ∀ (L : List SourceRaster) (buf : ℤ → ℤ → ℚ) (r c : ℤ),
      (L.foldl (addSource a X0 Y0 b0 b1 w h) buf) r c
        = buf r c + (L.map
            (fun s => sourceContribution b0 b1 (b0 + w) (b1 + h) s r c)).sum := by
  intro L
  induction L with
  | nil =>
    intro buf r c
    simp
  | cons s t ih =>
    intro buf r c
    rw [List.foldl_cons, ih, addSource_apply ha, List.map_cons,
      List.sum_cons]
    ring

/-! ## Claim C3 -/

/-- C3: `mosaic_block` persists the block under the name determined by its
row/column offsets, its written height is the nominal clipped block height
(the extra workaround row of the buffer is discarded before the write), and
every written pixel carries the sum — added, never overwritten — of the
overlap-window contributions of the sources, where non-intersecting sources
contribute nothing; consequently mosaicking two bit-identical sources
yields exactly twice the value of either input at every pixel. -/
theorem C3_mosaic_block_sums (sources : List SourceRaster) (W H : ℤ)
    (a X0 Y0 : ℚ) (col_offset row_offset block_size : ℤ) (ha : 0 < a)
    (r c : ℤ) :
    (mosaic_block sources W H a X0 Y0 col_offset row_offset
        block_size).outName
      = "block_" ++ toString row_offset ++ "_" ++ toString col_offset
        ++ ".tif" ∧
    (mosaic_block sources W H a X0 Y0 col_offset row_offset
        block_size).outHeight
      = min (row_offset + block_size) H - row_offset ∧
    (mosaic_block sources W H a X0 Y0 col_offset row_offset
        block_size).outWidth
      = min (col_offset + block_size) W - col_offset ∧
    (mosaic_block sources W H a X0 Y0 col_offset row_offset
        block_size).outData r c
      = ((sources.filter (fun s => intersectsBox s col_offset row_offset
          (min (col_offset + block_size) W)
          (min (row_offset + block_size) H + 1))).map
          (fun s => sourceContribution col_offset row_offset
            (min (col_offset + block_size) W)
            (min (row_offset + block_size) H + 1) s r c)).sum ∧
    (∀ s ∈ sources, intersectsBox s col_offset row_offset
        (min (col_offset + block_size) W)
        (min (row_offset + block_size) H + 1) = false →
      sourceContribution col_offset row_offset
        (min (col_offset + block_size) W)
        (min (row_offset + block_size) H + 1) s r c = 0) ∧
    (∀ s : SourceRaster,
      (mosaic_block [s, s] W H a X0 Y0 col_offset row_offset
          block_size).outData r c
        = 2 * (mosaic_block [s] W H a X0 Y0 col_offset row_offset
            block_size).outData r c) := by
  have hbw : ∀ u v : ℤ, u + (v - u) = v := fun u v => by ring
  have hdata : ∀ (L : List SourceRaster),
      (mosaic_block L W H a X0 Y0 col_offset row_offset block_size).outData r c
        = ((L.filter (fun s => intersectsBox s col_offset row_offset
            (min (col_offset + block_size) W)
            (min (row_offset + block_size) H + 1))).map
            (fun s => sourceContribution col_offset row_offset
              (min (col_offset + block_size) W)
              (min (row_offset + block_size) H + 1) s r c)).sum := by
    intro L
    simp only [mosaic_block]
    rw [mosaic_foldl_apply ha]
    simp only [hbw, zero_add]
  refine ⟨rfl, ?_, rfl, hdata sources, ?_, ?_⟩
  · simp only [mosaic_block]
    ring
  · intro s _ hns
    have hcond := of_decide_eq_false hns
    rw [sourceContribution, if_neg (by omega)]
  · intro s
    rw [hdata [s, s], hdata [s]]
    by_cases hp : intersectsBox s col_offset row_offset
        (min (col_offset + block_size) W)
        (min (row_offset + block_size) H + 1) = true
    · simp only [List.filter_cons, List.filter_nil, hp, if_true,
        List.map_cons, List.map_nil, List.sum_cons, List.sum_nil]
      ring
    · have hp' := Bool.eq_false_iff.mpr hp
      simp only [List.filter_cons, List.filter_nil, hp', Bool.false_eq_true,
        if_false, List.map_nil, List.sum_nil]
      ring

/-- Witness for C3: one 2×2 source of constant value 5 at the mosaic
origin, unit resolution; the doubling clause evaluated at pixel (0, 0). -/
theorem C3_mosaic_block_sums_witness :
    (0 : ℚ) < 1 ∧
    (mosaic_block [⟨0, 0, 2, 2, fun _ _ => 5⟩, ⟨0, 0, 2, 2, fun _ _ => 5⟩]
        2 2 1 0 0 0 0 2).outData 0 0
      = 2 * (mosaic_block [⟨0, 0, 2, 2, fun _ _ => 5⟩]
          2 2 1 0 0 0 0 2).outData 0 0 :=
  ⟨by norm_num,
    (C3_mosaic_block_sums [⟨0, 0, 2, 2, fun _ _ => 5⟩] 2 2 1 0 0 0 0 2
      (by norm_num) 0 0).2.2.2.2.2 ⟨0, 0, 2, 2, fun _ _ => 5⟩⟩

/-! ## Claim C9 -/

/-- C9: the dot product of the two unit bearing vectors is
`cos(dir − bearing)` and always lies in `[-1, 1]`, so the arccosine never
receives an out-of-domain argument; and for every bearing `b` — including
multiples of 360 such as 225+360 = 585 — `calc_lookangle b b = 0`.  (The
source's guard is a cast of the float64 dot product to float32, which
rounds the rare overshoot back into range; in exact arithmetic the dot
product is already in range and the cast is the identity.) -/
theorem C9_calc_lookangle_domain (d t : ℝ) :
    calc_lookangle_dot d t = Real.cos (np_radians d - np_radians t) ∧
    -1 ≤ calc_lookangle_dot d t ∧ calc_lookangle_dot d t ≤ 1 ∧
    (∀ b : ℝ, calc_lookangle b b = 0) ∧
    calc_lookangle 225 225 = 0 ∧ calc_lookangle 585 585 = 0 := by
  have hcos : ∀ x y : ℝ, calc_lookangle_dot x y
      = Real.cos (np_radians x - np_radians y) := by
    intro x y
    rw [Real.cos_sub]
    unfold calc_lookangle_dot
    ring
  have hzero : ∀ b : ℝ, calc_lookangle b b = 0 := by
    intro b
    have hdot : calc_lookangle_dot b b = 1 := by
      unfold calc_lookangle_dot
      rw [← Real.sin_sq_add_cos_sq (np_radians b)]
      ring
    unfold calc_lookangle
    rw [hdot, Real.arccos_one]
    unfold np_degrees
    ring
  refine ⟨hcos d t, ?_, ?_, hzero, hzero 225, hzero 585⟩
  · rw [hcos d t]
    exact Real.neg_one_le_cos _
  · rw [hcos d t]
    exact Real.cos_le_one _

/-! ## Claim C7 -/

/-- C7 counterexample: in the 3×3 window the distance at the north edge
midpoint is 1, not half the axis length 3/2; in the 4×4 window the distance
at pixel (0, 2) squares to 5/2, so it is not `4/2 - 1/2 = 3/2` (whose
square is 9/4) — the even-window ordinal distance picks up an extra
half-pixel offset along the edge. -/
theorem C7_counterexample :
    distanceArr 3 3 0 1 = 1 ∧ ((1 : ℝ) ≠ 3 / 2) ∧
    (distanceArr 4 4 0 2) ^ 2 = 5 / 2 ∧
    distanceArr 4 4 0 2 ≠ 4 / 2 - 1 / 2 := by
  have hc3 : centerIndex 3 = 1 := by
    unfold centerIndex
    norm_num
  have hc4 : centerIndex 4 = 3 / 2 := by
    unfold centerIndex
    norm_num
  have h33 : distanceArr 3 3 0 1 = 1 := by
    simp only [distanceArr]
    rw [hc3]
    have harg : (((0 : ℕ) : ℝ) - 1) ^ 2 + (((1 : ℕ) : ℝ) - 1) ^ 2 = 1 := by
      push_cast
      ring
    rw [harg, Real.sqrt_one]
  have h44 : (distanceArr 4 4 0 2) ^ 2 = 5 / 2 := by
    simp only [distanceArr]
    rw [hc4, Real.sq_sqrt (by positivity)]
    push_cast
    ring
  refine ⟨h33, by norm_num, h44, ?_⟩
  intro h
  rw [h] at h44
  norm_num at h44

/-- C7 (amended): for every square window of odd side `2k+1` (`k ≥ 1`) the
reference cell is the true center `k` and the distances at the four edge
midpoints are exactly `k = (n-1)/2` — the floor of half the side, not half
the side — while the four corner directions are exactly 45, 135, 225 and
315 degrees; for the even side `2k` the reference cell is the average
`((k-1) + k)/2` of the two center cells and the edge near-midpoint distance
satisfies `d² = (n/2 - 1/2)² + (1/2)²` (the claimed `n/2 - 1/2` is only the
perpendicular component). -/
theorem C7_distance_direction_field (k : ℕ) (hk : 1 ≤ k) :
    centerIndex (2 * k + 1) = (k : ℝ) ∧
    centerIndex (2 * k) = (((k : ℝ) - 1) + (k : ℝ)) / 2 ∧
    distanceArr (2 * k + 1) (2 * k + 1) 0 k = (k : ℝ) ∧
    distanceArr (2 * k + 1) (2 * k + 1) k 0 = (k : ℝ) ∧
    distanceArr (2 * k + 1) (2 * k + 1) k (2 * k) = (k : ℝ) ∧
    distanceArr (2 * k + 1) (2 * k + 1) (2 * k) k = (k : ℝ) ∧
    directionArr (2 * k + 1) (2 * k + 1) 0 (2 * k) = 45 ∧
    directionArr (2 * k + 1) (2 * k + 1) (2 * k) (2 * k) = 135 ∧
    directionArr (2 * k + 1) (2 * k + 1) (2 * k) 0 = 225 ∧
    directionArr (2 * k + 1) (2 * k + 1) 0 0 = 315 ∧
    (distanceArr (2 * k) (2 * k) 0 k) ^ 2
      = (2 * (k : ℝ) / 2 - 1 / 2) ^ 2 + (1 / 2) ^ 2 := by
  have hkpos : (0 : ℝ) < (k : ℝ) := by
    exact_mod_cast Nat.lt_of_lt_of_le Nat.zero_lt_one hk
  have hcodd : centerIndex (2 * k + 1) = (k : ℝ) := by
    unfold centerIndex
    rw [if_neg (by omega)]
    congr 1
    omega
  have hceven : centerIndex (2 * k) = (((k : ℝ) - 1) + (k : ℝ)) / 2 := by
    unfold centerIndex
    rw [if_pos (by omega)]
    push_cast
    ring
  have hgx0 : ((0 : ℕ) : ℝ) - (k : ℝ) = -(k : ℝ) := by
    push_cast
    ring
  have hgxk : ((k : ℕ) : ℝ) - (k : ℝ) = 0 := by
    ring
  have hgx2k : ((2 * k : ℕ) : ℝ) - (k : ℝ) = (k : ℝ) := by
    push_cast
    ring
  have hdN : distanceArr (2 * k + 1) (2 * k + 1) 0 k = (k : ℝ) := by
    simp only [distanceArr]
    rw [hcodd, hgx0, hgxk,
      show (-(k : ℝ)) ^ 2 + (0 : ℝ) ^ 2 = (k : ℝ) ^ 2 by ring,
      Real.sqrt_sq hkpos.le]
  have hdW : distanceArr (2 * k + 1) (2 * k + 1) k 0 = (k : ℝ) := by
    simp only [distanceArr]
    rw [hcodd, hgx0, hgxk,
      show (0 : ℝ) ^ 2 + (-(k : ℝ)) ^ 2 = (k : ℝ) ^ 2 by ring,
      Real.sqrt_sq hkpos.le]
  have hdE : distanceArr (2 * k + 1) (2 * k + 1) k (2 * k) = (k : ℝ) := by
    simp only [distanceArr]
    rw [hcodd, hgxk, hgx2k,
      show (0 : ℝ) ^ 2 + ((k : ℝ)) ^ 2 = (k : ℝ) ^ 2 by ring,
      Real.sqrt_sq hkpos.le]
  have hdS : distanceArr (2 * k + 1) (2 * k + 1) (2 * k) k = (k : ℝ) := by
    simp only [distanceArr]
    rw [hcodd, hgxk, hgx2k,
      show ((k : ℝ)) ^ 2 + (0 : ℝ) ^ 2 = (k : ℝ) ^ 2 by ring,
      Real.sqrt_sq hkpos.le]
  have hdeg45 : np_degrees (-(Real.pi / 4) + Real.pi / 2) = 45 := by
    unfold np_degrees
    rw [show -(Real.pi / 4) + Real.pi / 2 = Real.pi / 4 by ring,
      div_eq_iff Real.pi_ne_zero]
    ring
  have hdeg135 : np_degrees (Real.pi / 4 + Real.pi / 2) = 135 := by
    unfold np_degrees
    rw [div_eq_iff Real.pi_ne_zero]
    ring
  have hdeg225 : np_degrees (3 * Real.pi / 4 + Real.pi / 2) = 225 := by
    unfold np_degrees
    rw [div_eq_iff Real.pi_ne_zero]
    ring
  have hdeg315 : np_degrees (-(3 * Real.pi / 4) + Real.pi / 2) = -45 := by
    unfold np_degrees
    rw [div_eq_iff Real.pi_ne_zero]
    ring
  have hatNE : np_arctan2 (-(k : ℝ)) (k : ℝ) = -(Real.pi / 4) := by
    unfold np_arctan2
    rw [if_pos hkpos,
      show (-(k : ℝ)) / (k : ℝ) = -1 by
        rw [neg_div, div_self hkpos.ne'],
      Real.arctan_neg, Real.arctan_one]
  have hatSE : np_arctan2 ((k : ℝ)) (k : ℝ) = Real.pi / 4 := by
    unfold np_arctan2
    rw [if_pos hkpos, div_self hkpos.ne', Real.arctan_one]
  have hatSW : np_arctan2 ((k : ℝ)) (-(k : ℝ)) = 3 * Real.pi / 4 := by
    unfold np_arctan2
    rw [if_neg (by linarith), if_pos (by linarith), if_pos hkpos.le,
      show (k : ℝ) / (-(k : ℝ)) = -1 by
        rw [div_neg, div_self hkpos.ne'],
      Real.arctan_neg, Real.arctan_one]
    ring
  have hatNW : np_arctan2 (-(k : ℝ)) (-(k : ℝ)) = -(3 * Real.pi / 4) := by
    unfold np_arctan2
    rw [if_neg (by linarith), if_pos (by linarith),
      if_neg (by push_neg; linarith),
      show (-(k : ℝ)) / (-(k : ℝ)) = 1 by
        rw [neg_div_neg_eq, div_self hkpos.ne'],
      Real.arctan_one]
    ring
  have hdirNE : directionArr (2 * k + 1) (2 * k + 1) 0 (2 * k) = 45 := by
    simp only [directionArr]
    rw [hcodd, hgx0, hgx2k, hatNE, hdeg45, if_neg (by norm_num)]
  have hdirSE : directionArr (2 * k + 1) (2 * k + 1) (2 * k) (2 * k) = 135 := by
    simp only [directionArr]
    rw [hcodd, hgx2k, hatSE, hdeg135, if_neg (by norm_num)]
  have hdirSW : directionArr (2 * k + 1) (2 * k + 1) (2 * k) 0 = 225 := by
    simp only [directionArr]
    rw [hcodd, hgx0, hgx2k, hatSW, hdeg225, if_neg (by norm_num)]
  have hdirNW : directionArr (2 * k + 1) (2 * k + 1) 0 0 = 315 := by
    simp only [directionArr]
    rw [hcodd, hgx0, hatNW, hdeg315, if_pos (by norm_num)]
    norm_num
  have hdEven : (distanceArr (2 * k) (2 * k) 0 k) ^ 2
      = (2 * (k : ℝ) / 2 - 1 / 2) ^ 2 + (1 / 2) ^ 2 := by
    simp only [distanceArr]
    rw [hceven, Real.sq_sqrt (by positivity)]
    push_cast
    ring
  exact ⟨hcodd, hceven, hdN, hdW, hdE, hdS, hdirNE, hdirSE, hdirSW, hdirNW,
    hdEven⟩

/-- Witness for C7 (amended): the 3×3 and 2×2 windows (`k = 1`). -/
theorem C7_distance_direction_field_witness :
    centerIndex (2 * 1 + 1) = ((1 : ℕ) : ℝ) ∧
    centerIndex (2 * 1) = ((((1 : ℕ) : ℝ) - 1) + ((1 : ℕ) : ℝ)) / 2 ∧
    distanceArr (2 * 1 + 1) (2 * 1 + 1) 0 1 = ((1 : ℕ) : ℝ) ∧
    distanceArr (2 * 1 + 1) (2 * 1 + 1) 1 0 = ((1 : ℕ) : ℝ) ∧
    distanceArr (2 * 1 + 1) (2 * 1 + 1) 1 (2 * 1) = ((1 : ℕ) : ℝ) ∧
    distanceArr (2 * 1 + 1) (2 * 1 + 1) (2 * 1) 1 = ((1 : ℕ) : ℝ) ∧
    directionArr (2 * 1 + 1) (2 * 1 + 1) 0 (2 * 1) = 45 ∧
    directionArr (2 * 1 + 1) (2 * 1 + 1) (2 * 1) (2 * 1) = 135 ∧
    directionArr (2 * 1 + 1) (2 * 1 + 1) (2 * 1) 0 = 225 ∧
    directionArr (2 * 1 + 1) (2 * 1 + 1) 0 0 = 315 ∧
    (distanceArr (2 * 1) (2 * 1) 0 1) ^ 2
      = (2 * ((1 : ℕ) : ℝ) / 2 - 1 / 2) ^ 2 + (1 / 2) ^ 2 :=
  C7_distance_direction_field 1 (le_refl 1)

end ViaWind
